import Mathlib

/-!
Verification of the graph-app analysis engine against its specification.

This file gives a shallow embedding of the three analyzers the claims are
about:

* `Minimal` — `py/graph_analysis.py` (`analyze_graph`): graph construction,
  influence scores, positive/negative simple-path classification, boundary
  error handling.
* `Causal` — `py/plugins/causal-paths/analysis.py` (`analyze_graph`):
  signed weights via absolute value, path classification by edge *type*,
  mixed paths, sorting by descending absolute path weight.
* `PathA` — `py/plugins/path-analysis/analysis.py`: distance weights,
  shortest-path / all-paths analysis, source/target resolution with the
  silent target substitution, and the bottleneck critical-node selection.

Python dictionaries are modelled by association lists with in-place update
(`dictInsert`), which preserves both the key-uniqueness and the iteration
(insertion) order of Python dicts.  Numeric edge weights are modelled as
`Int` (the claims concern exact integer behavior; `round(x, k)` is the
identity on integers).  NetworkX's `DiGraph` is modelled by an ordered node
list without duplicates plus an ordered edge list in which adding an edge
for an existing `(source, target)` pair overwrites that edge's data in
place — exactly NetworkX's adjacency behavior.  `nx.all_simple_paths` is
modelled by a fuel-indexed depth-first enumeration, where the fuel is the
`cutoff` argument (maximum number of edges on a path); the embedding is
total, so termination of path enumeration holds by construction.
-/

/-- A raw node record: a Python dict with optional fields.  `none` models an
absent key, so `node.get('id')` is `id` itself and `node.get('label',
node_id)` is `label.getD node_id`. -/
structure PyNode where
  id : Option String
  label : Option String := none
  deriving Repr, DecidableEq

/-- A raw edge record.  `weight` is `none` when the key is absent, so
`edge.get('weight', 1)` is `weight.getD 1`; likewise for `type`. -/
structure PyEdge where
  source : Option String
  target : Option String
  type : Option String := none
  weight : Option Int := none
  deriving Repr, DecidableEq

/-- Insert into a Python-style dict (association list): if the key is
already present its value is updated in place, otherwise the pair is
appended.  This is exactly the semantics of `d[k] = v` on a Python dict. -/
def dictInsert {α : Type} (k : String) (v : α) : List (String × α) → List (String × α)
  | [] => [(k, v)]
  | (k₂, v₂) :: rest => if k₂ = k then (k, v) :: rest else (k₂, v₂) :: dictInsert k v rest

/-- Dictionary lookup: value of the first (hence only) entry with key `k`. -/
def dictLookup {α : Type} (k : String) : List (String × α) → Option α
  | [] => none
  | (k₂, v) :: rest => if k₂ = k then some v else dictLookup k rest

/-- Insert a list of key/value pairs left to right (a dict comprehension or
an assignment loop over a Python dict). -/
def insertAll {α : Type} : List (String × α) → List (String × α) → List (String × α)
  | d, [] => d
  | d, (k, v) :: rest => insertAll (dictInsert k v d) rest

/-- Value of the last pair of `kvs` carrying key `k`, if any.  This is what
a left-to-right dict build reports for `k` (later assignments win). -/
def lastVal {α : Type} (k : String) : List (String × α) → Option α
  | [] => none
  | (k₂, v) :: rest =>
    match lastVal k rest with
    | some w => some w
    | none => if k₂ = k then some v else none

/-- Number of entries of an association list carrying key `k`. -/
def countKey {α : Type} (k : String) (d : List (String × α)) : Nat :=
  (d.filter (fun p => p.1 = k)).length

/-- A directed graph as NetworkX's `DiGraph` presents it: node ids in
insertion order without duplicates, and per-pair-unique edges `(source,
target, data)` in insertion order. -/
structure Graph (α : Type) where
  nodeIds : List String
  edges : List (String × String × α)
  deriving Repr, DecidableEq

/-- Add a node id, keeping the first insertion position on re-insertion
(`G.add_node` on an existing node only updates attributes). -/
def addNodeId (i : String) (ids : List String) : List String :=
  if i ∈ ids then ids else ids ++ [i]

/-- Add an edge as NetworkX's `G.add_edge`: overwrite the data of an
existing `(source, target)` pair in place, else append. -/
def addEdgeRepl {α : Type} (s t : String) (d : α) :
    List (String × String × α) → List (String × String × α)
  | [] => [(s, t, d)]
  | (s₂, t₂, d₂) :: rest =>
    if s₂ = s ∧ t₂ = t then (s, t, d) :: rest else (s₂, t₂, d₂) :: addEdgeRepl s t d rest

/-- Ids of the input nodes that actually carry an id, in order. -/
def nodeIdList (nodes : List PyNode) : List String :=
  nodes.filterMap (fun n => n.id)

/-- Resolved display label of a node: `node.get('label', node['id'])`. -/
def resolvedLabel (n : PyNode) : String :=
  n.label.getD (n.id.getD "")

/-- Resolved labels of all nodes, in input order. -/
def resolvedLabels (nodes : List PyNode) : List String :=
  nodes.map resolvedLabel

/-- The `id → label` dictionary `{n['id']: n.get('label', n['id']) for n in
nodes if n.get('id') is not None}` shared by all three analyzers. -/
def idToLabel (nodes : List PyNode) : List (String × String) :=
  insertAll [] (nodes.filterMap (fun n => n.id.map (fun i => (i, n.label.getD i))))

/-- Translate a path of node ids to labels via `id_to_label.get(n, n)`. -/
def labelPath (labels : List (String × String)) (p : List String) : List String :=
  p.map (fun i => (dictLookup i labels).getD i)

/-- Successor node ids of `u`, in adjacency (edge-insertion) order. -/
def successors {α : Type} (E : List (String × String × α)) (u : String) : List String :=
  (E.filter (fun e => e.1 = u)).map (fun e => e.2.1)

/-- Depth-first enumeration of the simple paths that extend `path ++ [u]`
to `t` using at most `fuel` further edges.  This models the generator
`nx.all_simple_paths(G, source, target, cutoff)`: `cutoff` bounds the
number of edges of an emitted path, and no node is ever revisited. -/
def simplePathsAux {α : Type} (E : List (String × String × α)) (t : String) :
    Nat → List String → String → List (List String)
  | fuel, path, u =>
    if u = t then [path ++ [u]]
    else
      match fuel with
      | 0 => []
      | fuel₂ + 1 =>
        ((successors E u).filter (fun v => v ∉ path ++ [u])).flatMap
          (fun v => simplePathsAux E t fuel₂ (path ++ [u]) v)

/-- All simple paths from `s` to `t` with at most `cutoff` edges. -/
def allSimplePaths {α : Type} (E : List (String × String × α)) (s t : String)
    (cutoff : Nat) : List (List String) :=
  simplePathsAux E t cutoff [] s

/-- One breadth-first expansion round: all edge targets whose source is
already reached but which are not yet reached themselves. -/
def reachStep {α : Type} (E : List (String × String × α)) (visited : List String) :
    List String :=
  ((E.filter (fun e => visited.contains e.1 && !(visited.contains e.2.1))).map
    (fun e => e.2.1)).dedup

/-- Fuel-indexed reachability closure (models `nx.has_path`'s breadth-first
search; a fuel of the node count suffices because every round that does not
stabilize adds at least one of the at most `|V|` node ids). -/
def reachAux {α : Type} (E : List (String × String × α)) : Nat → List String → List String
  | 0, visited => visited
  | fuel + 1, visited =>
    match reachStep E visited with
    | [] => visited
    | next => reachAux E fuel (visited ++ next)

/-- Model of `nx.has_path(G, s, t)`. -/
def hasPathB {α : Type} (G : Graph α) (s t : String) : Bool :=
  (reachAux G.edges G.nodeIds.length [s]).contains t

namespace Minimal

/-- Signed weight the minimal analyzer stores on an edge
(`py/graph_analysis.py` lines 40–43): `weight = edge.get('weight', 1)`,
negated when `edge.get('type') == '-'`.  Note that this negates the raw
weight rather than taking an absolute value first. -/
def signedWeight (e : PyEdge) : Int :=
  if e.type = some "-" then -(e.weight.getD 1) else e.weight.getD 1

/-- Node-adding loop of the minimal analyzer: raises `ValueError("Node
missing 'id'")` at the first node without an id. -/
def addNodes : List PyNode → List String → Except String (List String)
  | [], acc => .ok acc
  | n :: rest, acc =>
    match n.id with
    | none => .error "Node missing 'id'"
    | some i => addNodes rest (addNodeId i acc)

/-- Edge-adding loop of the minimal analyzer: raises at the first edge
without a source or target or whose endpoint is not a known node id. -/
def addEdges (ids : List String) :
    List PyEdge → List (String × String × Int) → Except String (List (String × String × Int))
  | [], acc => .ok acc
  | e :: rest, acc =>
    match e.source, e.target with
    | some s, some t =>
      if s ∈ ids ∧ t ∈ ids then addEdges ids rest (addEdgeRepl s t (signedWeight e) acc)
      else .error "Edge references missing node"
    | _, _ => .error "Edge missing 'source' or 'target'"

/-- Graph construction of `py/graph_analysis.py` lines 20–43. -/
def buildGraph (nodes : List PyNode) (edges : List PyEdge) : Except String (Graph Int) :=
  match addNodes nodes [] with
  | .error m => .error m
  | .ok ids =>
    match addEdges ids edges [] with
    | .error m => .error m
    | .ok es => .ok ⟨ids, es⟩

/-- Influence score of node id `i`: sum of the stored weights of the
graph's in-edges of `i` (`G.in_edges(node, data=True)`). -/
def inSum (G : Graph Int) (i : String) : Int :=
  ((G.edges.filter (fun e => e.2.1 = i)).map (fun e => e.2.2)).sum

/-- Weight of the graph edge `(u, v)` (`G[u][v]['weight']`); the analyzer
only consults pairs that are known to be present. -/
def getEdgeWeight {α : Type} [Inhabited α] (E : List (String × String × α)) (u v : String) : α :=
  match E.find? (fun e => e.1 = u ∧ e.2.1 = v) with
  | some e => e.2.2
  | none => default

/-- Test that every consecutive edge weight along path `p` satisfies
`pred` (the generator expression over `zip(path, path[1:])`). -/
def pathAllB (pred : Int → Bool) (E : List (String × String × Int)) (p : List String) : Bool :=
  (p.zip p.tail).all (fun q => pred (getEdgeWeight E q.1 q.2))

/-- `source = nodes[0].get('id')`. -/
def sourceId (nodes : List PyNode) : Option String :=
  match nodes with
  | [] => none
  | n :: _ => n.id

/-- `target = nodes[-1].get('id')`. -/
def targetId (nodes : List PyNode) : Option String :=
  match nodes.getLast? with
  | some n => n.id
  | none => none

/-- Guard at `py/graph_analysis.py` line 60: `all_weights and
max(all_weights) > 0`. -/
def maxWeightPositive (E : List (String × String × Int)) : Bool :=
  match (E.map (fun e => e.2.2)).max? with
  | some m => decide (0 < m)
  | none => false

/-- Enumeration the minimal analyzer runs when its guards pass: all simple
paths from first to last node with cutoff `len(G.nodes())`. -/
def enumeratedPaths (nodes : List PyNode) (edges : List PyEdge) : List (List String) :=
  match buildGraph nodes edges, sourceId nodes, targetId nodes with
  | .ok G, some s, some t => allSimplePaths G.edges s t G.nodeIds.length
  | _, _, _ => []

/-- Result record of the minimal analyzer. -/
structure MinResult where
  influence_scores : List (String × Int)
  positive_paths : List (List String)
  negative_paths : List (List String)
  error : String
  deriving Repr, DecidableEq

/-- Shallow embedding of `analyze_graph` from `py/graph_analysis.py`.  The
`try/except` boundary becomes the match on `buildGraph`; every later stage
of the source is exception-free on a validly built graph. -/
def analyze_graph (nodes : List PyNode) (edges : List PyEdge) : MinResult :=
  match buildGraph nodes edges with
  | .error msg => ⟨[], [], [], msg⟩
  | .ok G =>
    let labels := idToLabel nodes
    let influence :=
      insertAll [] (G.nodeIds.map (fun i => ((dictLookup i labels).getD i, inSum G i)))
    let pathLists : List (List String) × List (List String) :=
      if 2 ≤ nodes.length then
        match sourceId nodes, targetId nodes with
        | some s, some t =>
          if hasPathB G s t then
            if maxWeightPositive G.edges then
              let paths := allSimplePaths G.edges s t G.nodeIds.length
              ((paths.filter (pathAllB (fun w => decide (0 < w)) G.edges)).map (labelPath labels),
               (paths.filter (pathAllB (fun w => decide (w < 0)) G.edges)).map (labelPath labels))
            else ([], [])
          else ([], [])
        | _, _ => ([], [])
      else ([], [])
    ⟨influence, pathLists.1, pathLists.2, ""⟩

end Minimal

/-- Well-formedness of raw input as the spec's claims use it: every node
has an id, every edge has a source and a target, and both endpoints are
ids of input nodes. -/
def wellFormedB (nodes : List PyNode) (edges : List PyEdge) : Bool :=
  nodes.all (fun n => n.id.isSome) &&
  edges.all (fun e =>
    match e.source, e.target with
    | some s, some t => (nodeIdList nodes).contains s && (nodeIdList nodes).contains t
    | _, _ => false)

/-- Sum of the minimal analyzer's signed weights over the input edges whose
target is the node id `i` — the spec's formula
`sum(signed_weight(e) for e in edges if e.target == n)`. -/
def incomingSum (edges : List PyEdge) (i : String) : Int :=
  ((edges.filter (fun e => e.target = some i)).map Minimal.signedWeight).sum

/-- Stable insertion into a list sorted descending by `key`: the new
element goes before the first position whose key is not larger, so earlier
elements stay ahead of equal keys (CPython's stable `sorted(...,
reverse=True)`). -/
def insertDescBy {α β : Type} [LinearOrder β] (key : α → β) (x : α) : List α → List α
  | [] => [x]
  | y :: ys => if key x < key y then y :: insertDescBy key x ys else x :: y :: ys

/-- Stable sort, descending by `key`. -/
def sortDescBy {α β : Type} [LinearOrder β] (key : α → β) : List α → List α
  | [] => []
  | x :: xs => insertDescBy key x (sortDescBy key xs)

/-- Stable insertion into a list sorted ascending by `key`. -/
def insertAscBy {α β : Type} [LinearOrder β] (key : α → β) (x : α) : List α → List α
  | [] => [x]
  | y :: ys => if key y < key x then y :: insertAscBy key x ys else x :: y :: ys

/-- Stable sort, ascending by `key` (CPython's stable `sorted`). -/
def sortAscBy {α β : Type} [LinearOrder β] (key : α → β) : List α → List α
  | [] => []
  | x :: xs => insertAscBy key x (sortAscBy key xs)

namespace Causal

/-- Signed weight of the causal-paths plugin
(`plugins/causal-paths/analysis.py` lines 79–87): `-abs(weight)` when the
edge type (default `'+'`) is `'-'`, else `abs(weight)`. -/
def signedWeight (e : PyEdge) : Int :=
  if e.type.getD "+" = "-" then -|e.weight.getD 1| else |e.weight.getD 1|

/-- Edge data stored by the causal-paths plugin: signed weight and type. -/
def edgeData (e : PyEdge) : Int × String :=
  (signedWeight e, e.type.getD "+")

/-- Node-adding loop (`GraphValidationError` on a node without `'id'`). -/
def addNodes : List PyNode → List String → Except String (List String)
  | [], acc => .ok acc
  | n :: rest, acc =>
    match n.id with
    | none => .error "All nodes must have an 'id' field"
    | some i => addNodes rest (addNodeId i acc)

/-- Edge-adding loop with endpoint validation. -/
def addEdges (ids : List String) :
    List PyEdge → List (String × String × (Int × String)) →
      Except String (List (String × String × (Int × String)))
  | [], acc => .ok acc
  | e :: rest, acc =>
    match e.source, e.target with
    | some s, some t =>
      if s ∈ ids then
        if t ∈ ids then addEdges ids rest (addEdgeRepl s t (edgeData e) acc)
        else .error ("Edge target '" ++ t ++ "' not found in nodes")
      else .error ("Edge source '" ++ s ++ "' not found in nodes")
    | _, _ => .error "All edges must have 'source' and 'target' fields"

/-- Graph construction of the causal-paths plugin. -/
def buildGraph (nodes : List PyNode) (edges : List PyEdge) :
    Except String (Graph (Int × String)) :=
  match addNodes nodes [] with
  | .error m => .error m
  | .ok ids =>
    match addEdges ids edges [] with
    | .error m => .error m
    | .ok es => .ok ⟨ids, es⟩

/-- Analysis parameters; `none` models the `'auto'` sentinel of
`source_node` / `target_node`, and `maxPathLength` defaults to 5. -/
structure Params where
  maxPathLength : Nat := 5
  sourceNode : Option String := none
  targetNode : Option String := none
  deriving Repr, DecidableEq

/-- Source-node resolution (`analysis.py` lines 102–105). -/
def resolveSource (p : Params) (nids : List String) : Option String :=
  match p.sourceNode with
  | none => nids.head?
  | some sp => if sp ∈ nids then some sp else nids.head?

/-- Target-node resolution (`analysis.py` lines 107–110). -/
def resolveTarget (p : Params) (nids : List String) : Option String :=
  match p.targetNode with
  | none => if 1 < nids.length then nids.getLast? else nids.head?
  | some tp => if tp ∈ nids then some tp else nids.getLast?

/-- Stored weight of graph edge `(u, v)`. -/
def edgeWeight (E : List (String × String × (Int × String))) (u v : String) : Int :=
  match E.find? (fun e => e.1 = u ∧ e.2.1 = v) with
  | some e => e.2.2.1
  | none => 0

/-- Stored type of graph edge `(u, v)`. -/
def edgeType (E : List (String × String × (Int × String))) (u v : String) : String :=
  match E.find? (fun e => e.1 = u ∧ e.2.1 = v) with
  | some e => e.2.2.2
  | none => ""

/-- Types of the consecutive edges along a path (`edge_types`). -/
def pathTypes (E : List (String × String × (Int × String))) (p : List String) : List String :=
  (p.zip p.tail).map (fun q => edgeType E q.1 q.2)

/-- Detailed path record (`path_info`): readable path, product weight
(`round` is the identity on integers), and hop count. -/
structure PathInfo where
  path : List String
  weight : Int
  length : Nat
  deriving Repr, DecidableEq

/-- Build the `path_info` record for an id path. -/
def mkInfo (E : List (String × String × (Int × String)))
    (labels : List (String × String)) (p : List String) : PathInfo :=
  { path := labelPath labels p
    weight := ((p.zip p.tail).map (fun q => edgeWeight E q.1 q.2)).prod
    length := p.length - 1 }

/-- Result fields of the causal-paths plugin that the claims concern:
`results.primary` plus the detailed/mixed path lists of
`results.secondary`. -/
structure CausalResult where
  influence_scores : List (String × Int)
  positive_paths : List (List String)
  negative_paths : List (List String)
  detailed_positive : List PathInfo
  detailed_negative : List PathInfo
  mixed_paths : List PathInfo
  deriving Repr, DecidableEq

/-- Shallow embedding of `analyze_graph` from
`plugins/causal-paths/analysis.py`.  Validation failures surface as
`.error` (the plugin raises; the final wrapper re-raises any exception as
`AnalysisError`).  The guard `if source_node and target_node and
source_node != target_node` tests Python truthiness, so a `None` or
empty-string resolved endpoint skips path classification; `none` models
`None` and the explicit `≠ ""` tests model the falsiness of `""`. -/
def analyze_graph (nodes : List PyNode) (edges : List PyEdge) (params : Params) :
    Except String CausalResult :=
  if nodes.isEmpty then .error "Analysis requires at least 1 node"
  else
    match buildGraph nodes edges with
    | .error m => .error ("Causal path analysis failed: " ++ m)
    | .ok G =>
      let labels := idToLabel nodes
      let influence :=
        insertAll [] (G.nodeIds.map (fun i => ((dictLookup i labels).getD i, inSumC G i)))
      let nids := nodeIdList nodes
      let src := resolveSource params nids
      let tgt := resolveTarget params nids
      let classified : List PathInfo × List PathInfo × List PathInfo :=
        match src, tgt with
        | some s, some t =>
          if s ≠ "" ∧ t ≠ "" ∧ s ≠ t then
            let paths := allSimplePaths G.edges s t params.maxPathLength
            ((paths.filter (fun p => (pathTypes G.edges p).all (fun ty => ty = "+"))).map
               (mkInfo G.edges labels),
             (paths.filter (fun p => (pathTypes G.edges p).all (fun ty => ty = "-"))).map
               (mkInfo G.edges labels),
             (paths.filter (fun p =>
               !((pathTypes G.edges p).all (fun ty => ty = "+")) &&
               !((pathTypes G.edges p).all (fun ty => ty = "-")))).map (mkInfo G.edges labels))
          else ([], [], [])
        | _, _ => ([], [], [])
      let pos := sortDescBy (fun info => |info.weight|) classified.1
      let neg := sortDescBy (fun info => |info.weight|) classified.2.1
      let mixed := sortDescBy (fun info => |info.weight|) classified.2.2
      .ok
        { influence_scores := influence
          positive_paths := pos.map (fun info => info.path)
          negative_paths := neg.map (fun info => info.path)
          detailed_positive := pos
          detailed_negative := neg
          mixed_paths := mixed }
where
  /-- Influence score: sum of stored in-edge weights, `round(score, 3)`
  being the identity on integers. -/
  inSumC (G : Graph (Int × String)) (i : String) : Int :=
    ((G.edges.filter (fun e => e.2.1 = i)).map (fun e => e.2.2.1)).sum

end Causal

namespace PathA

/-- Distance weight of the path-analysis plugin
(`plugins/path-analysis/analysis.py` line 89): `abs(weight) if weight != 0
else 1`. -/
def distanceWeight (w : Int) : Int :=
  if w ≠ 0 then |w| else 1

/-- Edge data stored by the path-analysis plugin: distance weight, type,
and original weight. -/
def edgeData (e : PyEdge) : Int × String × Int :=
  (distanceWeight (e.weight.getD 1), e.type.getD "+", e.weight.getD 1)

/-- Node-adding loop with validation. -/
def addNodes : List PyNode → List String → Except String (List String)
  | [], acc => .ok acc
  | n :: rest, acc =>
    match n.id with
    | none => .error "All nodes must have an 'id' field"
    | some i => addNodes rest (addNodeId i acc)

/-- Edge-adding loop with endpoint validation. -/
def addEdges (ids : List String) :
    List PyEdge → List (String × String × (Int × String × Int)) →
      Except String (List (String × String × (Int × String × Int)))
  | [], acc => .ok acc
  | e :: rest, acc =>
    match e.source, e.target with
    | some s, some t =>
      if s ∈ ids then
        if t ∈ ids then addEdges ids rest (addEdgeRepl s t (edgeData e) acc)
        else .error ("Edge target '" ++ t ++ "' not found in nodes")
      else .error ("Edge source '" ++ s ++ "' not found in nodes")
    | _, _ => .error "All edges must have 'source' and 'target' fields"

/-- Graph construction of the path-analysis plugin. -/
def buildGraph (nodes : List PyNode) (edges : List PyEdge) :
    Except String (Graph (Int × String × Int)) :=
  match addNodes nodes [] with
  | .error m => .error m
  | .ok ids =>
    match addEdges ids edges [] with
    | .error m => .error m
    | .ok es => .ok ⟨ids, es⟩

/-- Parameters of the path-analysis plugin; `none` models `'auto'`. -/
structure Params where
  sourceNode : Option String := none
  targetNode : Option String := none
  maxPathLength : Nat := 6
  pathLimit : Nat := 20
  deriving Repr, DecidableEq

/-- Source resolution (`analysis.py` lines 98–101): the parameter when it
names a known node, otherwise the first node id. -/
def resolveSource (p : Params) (nids : List String) : Option String :=
  match p.sourceNode with
  | none => nids.head?
  | some sp => if sp ∈ nids then some sp else nids.head?

/-- Target resolution (`analysis.py` lines 103–106): the parameter when it
names a known node, otherwise the last node id (first when only one). -/
def resolveTarget (p : Params) (nids : List String) : Option String :=
  match p.targetNode with
  | none => if 1 < nids.length then nids.getLast? else nids.head?
  | some tp => if tp ∈ nids then some tp else if 1 < nids.length then nids.getLast? else nids.head?

/-- Silent target substitution (`analysis.py` lines 108–113): when the
resolved source and target coincide, scan the node ids in input order and
take the first one different from the source as the new target. -/
def adjustTarget (source target : Option String) (nids : List String) : Option String :=
  if source = target then
    match nids.find? (fun i => decide (some i ≠ source)) with
    | some i => some i
    | none => target
  else target

/-- Distance weight of graph edge `(u, v)` (`G[u][v]['weight']`). -/
def edgeDist (E : List (String × String × (Int × String × Int))) (u v : String) : Int :=
  match E.find? (fun e => e.1 = u ∧ e.2.1 = v) with
  | some e => e.2.2.1
  | none => 0

/-- Total distance weight along a path. -/
def pathDist (E : List (String × String × (Int × String × Int))) (p : List String) : Int :=
  ((p.zip p.tail).map (fun q => edgeDist E q.1 q.2)).sum

/-- First path of minimal total distance among `ps`. -/
def minByDist (E : List (String × String × (Int × String × Int))) :
    List (List String) → Option (List String)
  | [] => none
  | p :: ps =>
    match minByDist E ps with
    | none => some p
    | some q => if pathDist E p ≤ pathDist E q then some p else some q

/-- Result of `analyze_shortest_paths`: `none` fields model the explicit
`None` path/distance of the `NetworkXNoPath` handler. -/
structure SPResult where
  shortest_path : Option (List String)
  shortest_distance : Option Int
  shortest_path_length : Nat
  deriving Repr, DecidableEq

/-- Shallow embedding of `analyze_shortest_paths`
(`plugins/path-analysis/analysis.py` lines 237–263).  With every distance
weight a positive integer, Dijkstra's shortest path is a simple path of at
most `|V| - 1` edges, so `nx.shortest_path` is modelled by a
minimum-distance simple path, and `NetworkXNoPath` by the enumeration
being empty. -/
def analyze_shortest_paths (G : Graph (Int × String × Int)) (s t : String)
    (labels : List (String × String)) : SPResult :=
  match minByDist G.edges (allSimplePaths G.edges s t G.nodeIds.length) with
  | none => { shortest_path := none, shortest_distance := none, shortest_path_length := 0 }
  | some p =>
    { shortest_path := some (labelPath labels p)
      shortest_distance := some (pathDist G.edges p)
      shortest_path_length := p.length - 1 }

/-- Per-path record of `analyze_all_paths`. -/
structure PathDetail where
  path : List String
  path_ids : List String
  weight : Int
  length : Nat
  deriving Repr, DecidableEq

/-- Shallow embedding of `analyze_all_paths` (lines 266–314): enumerate
simple paths up to `max_length` edges, truncate to `limit`, report each
path's cumulative distance weight and hop count, sorted ascending by
weight. -/
def analyze_all_paths (G : Graph (Int × String × Int)) (s t : String)
    (maxLength limit : Nat) (labels : List (String × String)) : List PathDetail :=
  let raw := allSimplePaths G.edges s t maxLength
  let raw := if limit < raw.length then raw.take limit else raw
  sortAscBy (fun d => d.weight)
    (raw.map (fun p =>
      { path := labelPath labels p
        path_ids := p
        weight := pathDist G.edges p
        length := p.length - 1 }))

/-- Result fields of the path-analysis plugin that the claims concern. -/
structure PAResult where
  source_id : Option String
  target_id : Option String
  shortest : SPResult
  all_paths : List PathDetail
  deriving Repr, DecidableEq

/-- Shallow embedding of the path-analysis `analyze_graph` driver for the
comprehensive analysis type: validation, graph construction with distance
weights, source/target resolution with silent substitution, then shortest-
and all-path analysis. -/
def analyze_graph (nodes : List PyNode) (edges : List PyEdge) (params : Params) :
    Except String PAResult :=
  if nodes.isEmpty then .error "Analysis requires at least 1 node"
  else if nodes.length < 2 then .error "Path analysis requires at least 2 nodes"
  else
    match buildGraph nodes edges with
    | .error m => .error ("Path analysis failed: " ++ m)
    | .ok G =>
      let labels := idToLabel nodes
      let nids := nodeIdList nodes
      let src := resolveSource params nids
      let tgt := adjustTarget src (resolveTarget params nids) nids
      let sp :=
        match src, tgt with
        | some s, some t => analyze_shortest_paths G s t labels
        | _, _ => { shortest_path := none, shortest_distance := none, shortest_path_length := 0 }
      let ap :=
        match src, tgt with
        | some s, some t => analyze_all_paths G s t params.maxPathLength params.pathLimit labels
        | _, _ => []
      .ok { source_id := src, target_id := tgt, shortest := sp, all_paths := ap }

/-- Quartile size of the bottleneck analysis (`analysis.py` line 372):
`len(sorted_nodes) // 4 if len(sorted_nodes) >= 4 else 1`. -/
def criticalThreshold (n : Nat) : Nat :=
  if 4 ≤ n then n / 4 else 1

/-- Critical-node selection of `analyze_bottlenecks` (`analysis.py` lines
369–375), operating on the labelled betweenness scores: sort descending by
score (Python's `sorted` is stable), slice off the first
`critical_threshold` entries, and keep those with strictly positive
score. -/
def criticalNodes (scores : List (String × ℚ)) : List String :=
  if scores.isEmpty then []
  else
    let sorted := sortDescBy (fun p => p.2) scores
    ((sorted.take (criticalThreshold sorted.length)).filter (fun p => 0 < p.2)).map
      (fun p => p.1)

end PathA

/-- Modelled from the spec: the derived signed weight of §3 of the spec,
`signed_weight = -|weight|` when `type == "-"`, else `+|weight|`. -/
def specSignedWeight (e : PyEdge) : Int :=
  if e.type = some "-" then -|e.weight.getD 1| else |e.weight.getD 1|

/-- Modelled from the spec: the distance weight of §4.3 of the spec, the
absolute value of the original weight with `1` substituted when the
original weight is exactly `0`. -/
def specDistanceWeight (w : Int) : Int :=
  if w = 0 then 1 else |w|

section DictLemmas

variable {α : Type}

theorem dictLookup_dictInsert_self (k : String) (v : α) (d : List (String × α)) :
    dictLookup k (dictInsert k v d) = some v := by
  induction d with
  | nil => simp [dictInsert, dictLookup]
  | cons p rest ih =>
    obtain ⟨k₂, v₂⟩ := p
    by_cases h : k₂ = k
    · simp [dictInsert, dictLookup, h]
    · simp [dictInsert, dictLookup, h, ih]

theorem dictLookup_dictInsert_ne (k k₂ : String) (v : α) (d : List (String × α))
    (h : k₂ ≠ k) : dictLookup k (dictInsert k₂ v d) = dictLookup k d := by
  induction d with
  | nil => simp [dictInsert, dictLookup, h]
  | cons p rest ih =>
    obtain ⟨k₃, v₃⟩ := p
    by_cases h₂ : k₃ = k₂
    · subst h₂
      simp [dictInsert, dictLookup, h]
    · simp only [dictInsert, h₂, if_false, dictLookup]
      rw [ih]

theorem dictLookup_insertAll (k : String) (d kvs : List (String × α)) :
    dictLookup k (insertAll d kvs) =
      match lastVal k kvs with
      | some v => some v
      | none => dictLookup k d := by
  induction kvs generalizing d with
  | nil => simp [insertAll, lastVal]
  | cons p rest ih =>
    obtain ⟨k₂, v₂⟩ := p
    rw [insertAll, ih]
    rcases h : lastVal k rest with _ | w
    · by_cases hk : k₂ = k
      · subst hk
        simp [lastVal, h, dictLookup_dictInsert_self]
      · simp [lastVal, h, hk, dictLookup_dictInsert_ne k k₂ v₂ d hk]
    · simp [lastVal, h]

theorem lastVal_eq_none (k : String) (kvs : List (String × α))
    (h : k ∉ kvs.map Prod.fst) : lastVal k kvs = none := by
  induction kvs with
  | nil => rfl
  | cons p rest ih =>
    obtain ⟨k₂, v₂⟩ := p
    simp only [List.map_cons, List.mem_cons] at h
    push_neg at h
    rw [lastVal, ih h.2]
    simp [Ne.symm h.1]

theorem mem_keys_of_lastVal (k : String) (w : α) (kvs : List (String × α))
    (h : lastVal k kvs = some w) : k ∈ kvs.map Prod.fst := by
  by_contra hm
  rw [lastVal_eq_none k kvs hm] at h
  cases h

theorem lastVal_of_nodup (k : String) (v : α) (kvs : List (String × α))
    (hnd : (kvs.map Prod.fst).Nodup) (hmem : (k, v) ∈ kvs) : lastVal k kvs = some v := by
  induction kvs with
  | nil => cases hmem
  | cons p rest ih =>
    obtain ⟨k₂, v₂⟩ := p
    simp only [List.map_cons, List.nodup_cons] at hnd
    rcases List.mem_cons.mp hmem with h | h
    · obtain ⟨hk, hv⟩ := Prod.mk.injEq .. ▸ h
      subst hk
      have hnone : lastVal k rest = none := by
        rcases h₂ : lastVal k rest with _ | w
        · rfl
        · exact absurd (mem_keys_of_lastVal k w rest h₂) hnd.1
      simp [lastVal, hnone, hv]
    · rw [lastVal, ih hnd.2 h]

theorem lastVal_append (k : String) (l₁ l₂ : List (String × α)) :
    lastVal k (l₁ ++ l₂) =
      match lastVal k l₂ with
      | some v => some v
      | none => lastVal k l₁ := by
  induction l₁ with
  | nil =>
    rcases h : lastVal k l₂ with _ | v <;> simp [lastVal, h]
  | cons p rest ih =>
    obtain ⟨k₂, v₂⟩ := p
    rw [List.cons_append, lastVal, ih]
    rcases h : lastVal k l₂ with _ | v
    · rfl
    · simp [lastVal]

theorem keys_dictInsert_of_mem (k : String) (v : α) (d : List (String × α))
    (h : k ∈ d.map Prod.fst) : (dictInsert k v d).map Prod.fst = d.map Prod.fst := by
  induction d with
  | nil => cases h
  | cons p rest ih =>
    obtain ⟨k₂, v₂⟩ := p
    by_cases hk : k₂ = k
    · simp [dictInsert, hk]
    · simp only [List.map_cons, List.mem_cons] at h
      rcases h with h | h
      · exact absurd h.symm hk
      · simp [dictInsert, hk, ih h]

theorem keys_dictInsert_of_not_mem (k : String) (v : α) (d : List (String × α))
    (h : k ∉ d.map Prod.fst) : (dictInsert k v d).map Prod.fst = d.map Prod.fst ++ [k] := by
  induction d with
  | nil => simp [dictInsert]
  | cons p rest ih =>
    obtain ⟨k₂, v₂⟩ := p
    simp only [List.map_cons, List.mem_cons] at h
    push_neg at h
    simp [dictInsert, Ne.symm h.1, ih h.2]

theorem nodup_keys_dictInsert (k : String) (v : α) (d : List (String × α))
    (h : (d.map Prod.fst).Nodup) : ((dictInsert k v d).map Prod.fst).Nodup := by
  by_cases hm : k ∈ d.map Prod.fst
  · rw [keys_dictInsert_of_mem k v d hm]
    exact h
  · rw [keys_dictInsert_of_not_mem k v d hm]
    simp [List.nodup_append, h, hm]

theorem nodup_keys_insertAll (d kvs : List (String × α))
    (h : (d.map Prod.fst).Nodup) : ((insertAll d kvs).map Prod.fst).Nodup := by
  induction kvs generalizing d with
  | nil => exact h
  | cons p rest ih =>
    obtain ⟨k, v⟩ := p
    exact ih _ (nodup_keys_dictInsert k v d h)

theorem countKey_eq_one (k : String) (v : α) (d : List (String × α))
    (hnd : (d.map Prod.fst).Nodup) (h : dictLookup k d = some v) : countKey k d = 1 := by
  induction d with
  | nil => simp [dictLookup] at h
  | cons p rest ih =>
    obtain ⟨k₂, v₂⟩ := p
    simp only [List.map_cons, List.nodup_cons] at hnd
    by_cases hk : k₂ = k
    · subst hk
      have : countKey k₂ rest = 0 := by
        simp only [countKey, List.length_eq_zero, List.filter_eq_nil_iff]
        intro a ha
        simp only [decide_eq_true_eq]
        intro hh
        exact hnd.1 (hh ▸ List.mem_map_of_mem Prod.fst ha)
      simp [countKey, List.filter] at this ⊢
      simpa [countKey] using this
    · simp only [dictLookup, hk, if_false] at h
      have := ih hnd.2 h
      simpa [countKey, List.filter, hk] using this

theorem length_dictInsert_le (k : String) (v : α) (d : List (String × α)) :
    (dictInsert k v d).length ≤ d.length + 1 := by
  induction d with
  | nil => simp [dictInsert]
  | cons p rest ih =>
    obtain ⟨k₂, v₂⟩ := p
    by_cases h : k₂ = k
    · simp [dictInsert, h]
    · simp only [dictInsert, h, if_false, List.length_cons]
      omega

theorem length_dictInsert_of_mem (k : String) (v : α) (d : List (String × α))
    (h : k ∈ d.map Prod.fst) : (dictInsert k v d).length = d.length := by
  induction d with
  | nil => cases h
  | cons p rest ih =>
    obtain ⟨k₂, v₂⟩ := p
    simp only [List.map_cons, List.mem_cons] at h
    by_cases hk : k₂ = k
    · simp [dictInsert, hk]
    · rcases h with h | h
      · exact absurd h.symm hk
      · simp [dictInsert, hk, ih h]

theorem length_insertAll_le (d kvs : List (String × α)) :
    (insertAll d kvs).length ≤ d.length + kvs.length := by
  induction kvs generalizing d with
  | nil => simp [insertAll]
  | cons p rest ih =>
    obtain ⟨k, v⟩ := p
    calc (insertAll (dictInsert k v d) rest).length
        ≤ (dictInsert k v d).length + rest.length := ih _
      _ ≤ d.length + 1 + rest.length := by
          have := length_dictInsert_le k v d
          omega
      _ = d.length + (rest.length + 1) := by omega
      _ = d.length + ((k, v) :: rest).length := by simp

theorem length_insertAll_lt_of_key_mem (d kvs : List (String × α))
    (h : ∃ p ∈ kvs, p.1 ∈ d.map Prod.fst) :
    (insertAll d kvs).length < d.length + kvs.length := by
  induction kvs generalizing d with
  | nil => simp at h
  | cons q rest ih =>
    obtain ⟨k, v⟩ := q
    rw [insertAll]
    obtain ⟨p, hp, hpk⟩ := h
    rcases List.mem_cons.mp hp with rfl | hp₂
    · have h₁ : (dictInsert k v d).length = d.length := length_dictInsert_of_mem k v d hpk
      have h₂ := length_insertAll_le (dictInsert k v d) rest
      simp only [List.length_cons]
      omega
    · have hkeys : p.1 ∈ (dictInsert k v d).map Prod.fst := by
        by_cases hk : k ∈ d.map Prod.fst
        · rw [keys_dictInsert_of_mem k v d hk]
          exact hpk
        · rw [keys_dictInsert_of_not_mem k v d hk]
          exact List.mem_append_left _ hpk
      have := ih (dictInsert k v d) ⟨p, hp₂, hkeys⟩
      have h₁ := length_dictInsert_le k v d
      simp only [List.length_cons]
      omega

theorem length_insertAll_lt_of_dup (d kvs : List (String × α))
    (h : ¬(kvs.map Prod.fst).Nodup) : (insertAll d kvs).length < d.length + kvs.length := by
  induction kvs generalizing d with
  | nil => simp at h
  | cons q rest ih =>
    obtain ⟨k, v⟩ := q
    simp only [List.map_cons, List.nodup_cons] at h
    rw [insertAll]
    have hdi := length_dictInsert_le k v d
    by_cases hk : k ∈ rest.map Prod.fst
    · obtain ⟨p, hp, hpk⟩ := List.mem_map.mp hk
      have hmemkeys : p.1 ∈ (dictInsert k v d).map Prod.fst := by
        by_cases hkd : k ∈ d.map Prod.fst
        · rw [keys_dictInsert_of_mem k v d hkd, hpk]
          exact hkd
        · rw [keys_dictInsert_of_not_mem k v d hkd]
          simp [hpk]
      have hlt := length_insertAll_lt_of_key_mem (dictInsert k v d) rest ⟨p, hp, hmemkeys⟩
      simp only [List.length_cons]
      omega
    · have hrest : ¬(rest.map Prod.fst).Nodup := by tauto
      have := ih (dictInsert k v d) hrest
      simp only [List.length_cons]
      omega

end DictLemmas

theorem mem_addNodeId (x i : String) (ids : List String) :
    x ∈ addNodeId i ids ↔ x ∈ ids ∨ x = i := by
  by_cases h : i ∈ ids
  · simp only [addNodeId, h, if_true]
    exact ⟨fun hx => Or.inl hx, fun hx => hx.elim id (fun hh => hh ▸ h)⟩
  · simp [addNodeId, h]

theorem addNodeId_of_not_mem (i : String) (ids : List String) (h : i ∉ ids) :
    addNodeId i ids = ids ++ [i] := by
  simp [addNodeId, h]

theorem mem_addEdgeRepl {α : Type} (a : String × String × α) (s t : String) (d : α)
    (E : List (String × String × α)) (h : a ∈ addEdgeRepl s t d E) :
    a = (s, t, d) ∨ a ∈ E := by
  induction E with
  | nil => simpa [addEdgeRepl] using h
  | cons b rest ih =>
    obtain ⟨s₂, t₂, d₂⟩ := b
    by_cases hb : s₂ = s ∧ t₂ = t
    · simp only [addEdgeRepl, hb, if_true] at h
      rcases List.mem_cons.mp h with h | h
      · exact Or.inl h
      · exact Or.inr (List.mem_cons_of_mem _ h)
    · simp only [addEdgeRepl, hb, if_false] at h
      rcases List.mem_cons.mp h with h | h
      · exact Or.inr (h ▸ List.mem_cons_self _ _)
      · rcases ih h with h₂ | h₂
        · exact Or.inl h₂
        · exact Or.inr (List.mem_cons_of_mem _ h₂)

theorem addEdgeRepl_of_not_mem {α : Type} (s t : String) (d : α)
    (E : List (String × String × α)) (h : ∀ a ∈ E, ¬(a.1 = s ∧ a.2.1 = t)) :
    addEdgeRepl s t d E = E ++ [(s, t, d)] := by
  induction E with
  | nil => simp [addEdgeRepl]
  | cons b rest ih =>
    obtain ⟨s₂, t₂, d₂⟩ := b
    have hb : ¬(s₂ = s ∧ t₂ = t) := h (s₂, t₂, d₂) (List.mem_cons_self _ _)
    simp only [addEdgeRepl, hb, if_false, List.cons_append, List.cons.injEq, true_and]
    exact ih (fun a ha => h a (List.mem_cons_of_mem _ ha))

namespace Minimal

theorem addNodes_error (ns : List PyNode) : ∀ (acc : List String) (m : String),
    addNodes ns acc = .error m → m = "Node missing 'id'" := by
  induction ns with
  | nil => intro acc m h; simp [addNodes] at h
  | cons n rest ih =>
    intro acc m h
    rcases hn : n.id with _ | i
    · rw [addNodes, hn] at h
      exact (Except.error.injEq .. ▸ h).symm
    · rw [addNodes, hn] at h
      exact ih _ _ h

theorem addNodes_ok_of_wf (ns : List PyNode) : ∀ (acc : List String),
    (∀ n ∈ ns, n.id.isSome) → ∃ ids, addNodes ns acc = .ok ids := by
  induction ns with
  | nil => intro acc _; exact ⟨acc, rfl⟩
  | cons n rest ih =>
    intro acc hwf
    rcases hn : n.id with _ | i
    · have := hwf n (List.mem_cons_self _ _)
      rw [hn] at this
      cases this
    · obtain ⟨ids, hids⟩ := ih (addNodeId i acc) (fun n₂ h₂ => hwf n₂ (List.mem_cons_of_mem _ h₂))
      exact ⟨ids, by rw [addNodes, hn]; exact hids⟩

theorem addNodes_ok_wf (ns : List PyNode) : ∀ (acc ids : List String),
    addNodes ns acc = .ok ids → ∀ n ∈ ns, n.id.isSome := by
  induction ns with
  | nil => intro acc ids _ n hn; cases hn
  | cons n rest ih =>
    intro acc ids h n₂ hn₂
    rcases hn : n.id with _ | i
    · rw [addNodes, hn] at h
      cases h
    · rw [addNodes, hn] at h
      rcases List.mem_cons.mp hn₂ with rfl | hmem
      · simp [hn]
      · exact ih _ _ h n₂ hmem

theorem addNodes_mem (ns : List PyNode) : ∀ (acc ids : List String),
    addNodes ns acc = .ok ids → ∀ x, (x ∈ ids ↔ x ∈ acc ∨ x ∈ nodeIdList ns) := by
  induction ns with
  | nil =>
    intro acc ids h x
    simp only [addNodes, Except.ok.injEq] at h
    subst h
    simp [nodeIdList]
  | cons n rest ih =>
    intro acc ids h x
    rcases hn : n.id with _ | i
    · rw [addNodes, hn] at h
      cases h
    · rw [addNodes, hn] at h
      rw [ih _ _ h x, mem_addNodeId]
      have : nodeIdList (n :: rest) = i :: nodeIdList rest := by
        simp [nodeIdList, hn]
      rw [this]
      simp only [List.mem_cons]
      tauto

theorem addNodes_val (ns : List PyNode) : ∀ (acc ids : List String),
    (acc ++ nodeIdList ns).Nodup → addNodes ns acc = .ok ids →
    ids = acc ++ nodeIdList ns := by
  induction ns with
  | nil =>
    intro acc ids _ h
    simp only [addNodes, Except.ok.injEq] at h
    simp [nodeIdList, h.symm]
  | cons n rest ih =>
    intro acc ids hnd h
    rcases hn : n.id with _ | i
    · rw [addNodes, hn] at h
      cases h
    · rw [addNodes, hn] at h
      dsimp only at h
      have hcons : nodeIdList (n :: rest) = i :: nodeIdList rest := by
        simp [nodeIdList, hn]
      rw [hcons] at hnd ⊢
      have hni : i ∉ acc := by
        rw [List.nodup_append] at hnd
        intro hmem
        exact hnd.2.2 hmem (List.mem_cons_self _ _)
      rw [addNodeId_of_not_mem i acc hni] at h
      have hnd₂ : ((acc ++ [i]) ++ nodeIdList rest).Nodup := by
        rw [List.append_assoc, List.singleton_append]
        exact hnd
      rw [ih _ _ hnd₂ h, List.append_assoc, List.singleton_append]

theorem addEdges_error (es : List PyEdge) : ∀ (ids : List String)
    (acc : List (String × String × Int)) (m : String),
    addEdges ids es acc = .error m →
    m = "Edge references missing node" ∨ m = "Edge missing 'source' or 'target'" := by
  induction es with
  | nil => intro ids acc m h; simp [addEdges] at h
  | cons e rest ih =>
    intro ids acc m h
    rcases hs : e.source with _ | s <;> rcases ht : e.target with _ | t
    all_goals rw [addEdges, hs] at h
    · exact Or.inr (Except.error.injEq .. ▸ h).symm
    · exact Or.inr (Except.error.injEq .. ▸ h).symm
    · rw [ht] at h
      exact Or.inr (Except.error.injEq .. ▸ h).symm
    · rw [ht] at h
      dsimp only at h
      by_cases hmem : s ∈ ids ∧ t ∈ ids
      · rw [if_pos hmem] at h
        exact ih _ _ _ h
      · rw [if_neg hmem] at h
        exact Or.inl (Except.error.injEq .. ▸ h).symm

theorem addEdges_ok_of_wf (es : List PyEdge) : ∀ (ids : List String)
    (acc : List (String × String × Int)),
    (∀ e ∈ es, ∃ s t, e.source = some s ∧ e.target = some t ∧ s ∈ ids ∧ t ∈ ids) →
    ∃ out, addEdges ids es acc = .ok out := by
  induction es with
  | nil => intro ids acc _; exact ⟨acc, rfl⟩
  | cons e rest ih =>
    intro ids acc hwf
    obtain ⟨s, t, hs, ht, hsm, htm⟩ := hwf e (List.mem_cons_self _ _)
    obtain ⟨out, hout⟩ :=
      ih ids (addEdgeRepl s t (signedWeight e) acc)
        (fun e₂ h₂ => hwf e₂ (List.mem_cons_of_mem _ h₂))
    refine ⟨out, ?_⟩
    rw [addEdges, hs, ht]
    dsimp only
    rw [if_pos ⟨hsm, htm⟩]
    exact hout

theorem addEdges_ok_wf (es : List PyEdge) : ∀ (ids : List String)
    (acc out : List (String × String × Int)), addEdges ids es acc = .ok out →
    ∀ e ∈ es, ∃ s t, e.source = some s ∧ e.target = some t ∧ s ∈ ids ∧ t ∈ ids := by
  induction es with
  | nil => intro ids acc out _ e he; cases he
  | cons e rest ih =>
    intro ids acc out h e₂ he₂
    rcases hs : e.source with _ | s <;> rcases ht : e.target with _ | t
    all_goals rw [addEdges, hs] at h
    · cases h
    · cases h
    · rw [ht] at h; cases h
    · rw [ht] at h
      dsimp only at h
      by_cases hmem : s ∈ ids ∧ t ∈ ids
      · rw [if_pos hmem] at h
        rcases List.mem_cons.mp he₂ with rfl | hmem₂
        · exact ⟨s, t, hs, ht, hmem.1, hmem.2⟩
        · exact ih _ _ _ h e₂ hmem₂
      · rw [if_neg hmem] at h
        cases h

theorem addEdges_mem (es : List PyEdge) : ∀ (ids : List String)
    (acc out : List (String × String × Int)), addEdges ids es acc = .ok out →
    ∀ a ∈ out, a ∈ acc ∨
      ∃ e ∈ es, a = (e.source.getD "", e.target.getD "", signedWeight e) := by
  induction es with
  | nil =>
    intro ids acc out h a ha
    simp only [addEdges, Except.ok.injEq] at h
    subst h
    exact Or.inl ha
  | cons e rest ih =>
    intro ids acc out h a ha
    rcases hs : e.source with _ | s <;> rcases ht : e.target with _ | t
    all_goals rw [addEdges, hs] at h
    · cases h
    · cases h
    · rw [ht] at h; cases h
    · rw [ht] at h
      dsimp only at h
      by_cases hmem : s ∈ ids ∧ t ∈ ids
      · rw [if_pos hmem] at h
        rcases ih _ _ _ h a ha with h₂ | ⟨e₂, he₂, hval⟩
        · rcases mem_addEdgeRepl a s t (signedWeight e) acc h₂ with h₃ | h₃
          · refine Or.inr ⟨e, List.mem_cons_self _ _, ?_⟩
            rw [h₃, hs, ht]
            rfl
          · exact Or.inl h₃
        · exact Or.inr ⟨e₂, List.mem_cons_of_mem _ he₂, hval⟩
      · rw [if_neg hmem] at h
        cases h

theorem addEdges_endpoints (es : List PyEdge) : ∀ (ids : List String)
    (acc out : List (String × String × Int)), addEdges ids es acc = .ok out →
    (∀ a ∈ acc, a.1 ∈ ids ∧ a.2.1 ∈ ids) → ∀ a ∈ out, a.1 ∈ ids ∧ a.2.1 ∈ ids := by
  induction es with
  | nil =>
    intro ids acc out h hacc a ha
    simp only [addEdges, Except.ok.injEq] at h
    subst h
    exact hacc a ha
  | cons e rest ih =>
    intro ids acc out h hacc a ha
    rcases hs : e.source with _ | s <;> rcases ht : e.target with _ | t
    all_goals rw [addEdges, hs] at h
    · cases h
    · cases h
    · rw [ht] at h; cases h
    · rw [ht] at h
      dsimp only at h
      by_cases hmem : s ∈ ids ∧ t ∈ ids
      · rw [if_pos hmem] at h
        refine ih _ _ _ h ?_ a ha
        intro b hb
        rcases mem_addEdgeRepl b s t (signedWeight e) acc hb with h₂ | h₂
        · rw [h₂]
          exact hmem
        · exact hacc b h₂
      · rw [if_neg hmem] at h
        cases h

theorem addEdges_val (es : List PyEdge) : ∀ (ids : List String)
    (acc out : List (String × String × Int)), addEdges ids es acc = .ok out →
    (es.map (fun e => (e.source, e.target))).Nodup →
    (∀ e ∈ es, ∀ a ∈ acc, ¬(a.1 = e.source.getD "" ∧ a.2.1 = e.target.getD "")) →
    out = acc ++ es.map (fun e => (e.source.getD "", e.target.getD "", signedWeight e)) := by
  induction es with
  | nil =>
    intro ids acc out h _ _
    simp only [addEdges, Except.ok.injEq] at h
    simp [h.symm]
  | cons e rest ih =>
    intro ids acc out h hnd hdisj
    rcases hs : e.source with _ | s <;> rcases ht : e.target with _ | t
    all_goals rw [addEdges, hs] at h
    · cases h
    · cases h
    · rw [ht] at h; cases h
    · rw [ht] at h
      dsimp only at h
      by_cases hmem : s ∈ ids ∧ t ∈ ids
      · rw [if_pos hmem] at h
        simp only [List.map_cons, List.nodup_cons] at hnd
        have hrepl : addEdgeRepl s t (signedWeight e) acc = acc ++ [(s, t, signedWeight e)] := by
          refine addEdgeRepl_of_not_mem s t (signedWeight e) acc ?_
          intro a ha hcontra
          refine hdisj e (List.mem_cons_self _ _) a ha ?_
          rw [hs, ht]
          exact hcontra
        rw [hrepl] at h
        have hdisj₂ : ∀ e₂ ∈ rest, ∀ a ∈ acc ++ [(s, t, signedWeight e)],
            ¬(a.1 = e₂.source.getD "" ∧ a.2.1 = e₂.target.getD "") := by
          intro e₂ he₂ a ha hcontra
          rcases List.mem_append.mp ha with ha₂ | ha₂
          · exact hdisj e₂ (List.mem_cons_of_mem _ he₂) a ha₂ hcontra
          · obtain ⟨s₂, t₂, hs₂, ht₂, _, _⟩ := addEdges_ok_wf rest ids _ out h e₂ he₂
            simp only [List.mem_singleton] at ha₂
            subst ha₂
            simp only [hs₂, ht₂, Option.getD_some] at hcontra
            apply hnd.1
            refine List.mem_map.mpr ⟨e₂, he₂, ?_⟩
            rw [hs₂, ht₂, hs, ht, ← hcontra.1, ← hcontra.2]
          
        rw [ih _ _ _ h hnd.2 hdisj₂, List.map_cons, hs, ht]
        simp
      · rw [if_neg hmem] at h
        cases h

end Minimal

namespace Minimal

theorem buildGraph_ok_pieces (nodes : List PyNode) (edges : List PyEdge) (G : Graph Int)
    (h : buildGraph nodes edges = .ok G) :
    addNodes nodes [] = .ok G.nodeIds ∧ addEdges G.nodeIds edges [] = .ok G.edges := by
  rw [buildGraph] at h
  rcases han : addNodes nodes [] with m | ids
  · rw [han] at h
    cases h
  · rw [han] at h
    dsimp only at h
    rcases hae : addEdges ids edges [] with m | es
    · rw [hae] at h
      cases h
    · rw [hae] at h
      dsimp only at h
      obtain rfl : (⟨ids, es⟩ : Graph Int) = G := by injection h
      exact ⟨rfl, hae⟩

theorem buildGraph_ok_wf (nodes : List PyNode) (edges : List PyEdge) (G : Graph Int)
    (h : buildGraph nodes edges = .ok G) : wellFormedB nodes edges = true := by
  obtain ⟨han, hae⟩ := buildGraph_ok_pieces nodes edges G h
  have hidmem := addNodes_mem nodes [] G.nodeIds han
  rw [wellFormedB, Bool.and_eq_true]
  constructor
  · rw [List.all_eq_true]
    intro n hn
    exact addNodes_ok_wf nodes [] G.nodeIds han n hn
  · rw [List.all_eq_true]
    intro e he
    obtain ⟨s, t, hs, ht, hsm, htm⟩ := addEdges_ok_wf edges G.nodeIds [] G.edges hae e he
    have hsm₂ : s ∈ nodeIdList nodes := by
      rcases (hidmem s).mp hsm with h₂ | h₂
      · cases h₂
      · exact h₂
    have htm₂ : t ∈ nodeIdList nodes := by
      rcases (hidmem t).mp htm with h₂ | h₂
      · cases h₂
      · exact h₂
    rw [hs, ht]
    dsimp only
    rw [Bool.and_eq_true]
    exact ⟨List.elem_iff.mpr hsm₂, List.elem_iff.mpr htm₂⟩

theorem buildGraph_ok_of_wf (nodes : List PyNode) (edges : List PyEdge)
    (h : wellFormedB nodes edges = true) : ∃ G, buildGraph nodes edges = .ok G := by
  rw [wellFormedB, Bool.and_eq_true, List.all_eq_true, List.all_eq_true] at h
  obtain ⟨hn, he⟩ := h
  obtain ⟨ids, hids⟩ := addNodes_ok_of_wf nodes [] hn
  have hidmem := addNodes_mem nodes [] ids hids
  have hwfe : ∀ e ∈ edges, ∃ s t, e.source = some s ∧ e.target = some t ∧ s ∈ ids ∧ t ∈ ids := by
    intro e hmem
    have := he e hmem
    rcases hs : e.source with _ | s <;> rcases ht : e.target with _ | t <;>
      rw [hs, ht] at this <;> dsimp only at this
    · cases this
    · cases this
    · cases this
    · rw [Bool.and_eq_true] at this
      refine ⟨s, t, rfl, rfl, ?_, ?_⟩
      · exact (hidmem s).mpr (Or.inr (List.elem_iff.mp this.1))
      · exact (hidmem t).mpr (Or.inr (List.elem_iff.mp this.2))
  obtain ⟨out, hout⟩ := addEdges_ok_of_wf edges ids [] hwfe
  refine ⟨⟨ids, out⟩, ?_⟩
  rw [buildGraph, hids]
  dsimp only
  rw [hout]

theorem buildGraph_error_msg (nodes : List PyNode) (edges : List PyEdge) (m : String)
    (h : buildGraph nodes edges = .error m) :
    m = "Node missing 'id'" ∨ m = "Edge references missing node" ∨
      m = "Edge missing 'source' or 'target'" := by
  rw [buildGraph] at h
  rcases han : addNodes nodes [] with m₂ | ids
  · rw [han] at h
    dsimp only at h
    obtain rfl := (Except.error.injEq .. ▸ h).symm
    exact Or.inl (addNodes_error nodes [] m han)
  · rw [han] at h
    dsimp only at h
    rcases hae : addEdges ids edges [] with m₂ | es
    · rw [hae] at h
      dsimp only at h
      obtain rfl := (Except.error.injEq .. ▸ h).symm
      exact Or.inr (addEdges_error edges ids [] m hae)
    · rw [hae] at h
      cases h

theorem buildGraph_nodeIds (nodes : List PyNode) (edges : List PyEdge) (G : Graph Int)
    (h : buildGraph nodes edges = .ok G) (hnd : (nodeIdList nodes).Nodup) :
    G.nodeIds = nodeIdList nodes := by
  obtain ⟨han, _⟩ := buildGraph_ok_pieces nodes edges G h
  have := addNodes_val nodes [] G.nodeIds (by simpa using hnd) han
  simpa using this

theorem buildGraph_edges (nodes : List PyNode) (edges : List PyEdge) (G : Graph Int)
    (h : buildGraph nodes edges = .ok G)
    (hnd : (edges.map (fun e => (e.source, e.target))).Nodup) :
    G.edges = edges.map (fun e => (e.source.getD "", e.target.getD "", signedWeight e)) := by
  obtain ⟨_, hae⟩ := buildGraph_ok_pieces nodes edges G h
  have := addEdges_val edges G.nodeIds [] G.edges hae hnd (by intro e _ a ha; cases ha)
  simpa using this

end Minimal

theorem nodup_simplePathsAux {α : Type} (E : List (String × String × α)) (t : String) :
    ∀ (fuel : Nat) (path : List String) (u : String), (path ++ [u]).Nodup →
    ∀ p ∈ simplePathsAux E t fuel path u, p.Nodup := by
  intro fuel
  induction fuel with
  | zero =>
    intro path u hnd p hp
    rw [simplePathsAux] at hp
    by_cases hu : u = t
    · rw [if_pos hu] at hp
      obtain rfl := List.mem_singleton.mp hp
      exact hnd
    · rw [if_neg hu] at hp
      cases hp
  | succ fuel ih =>
    intro path u hnd p hp
    rw [simplePathsAux] at hp
    by_cases hu : u = t
    · rw [if_pos hu] at hp
      obtain rfl := List.mem_singleton.mp hp
      exact hnd
    · rw [if_neg hu] at hp
      obtain ⟨v, hv, hp₂⟩ := List.mem_flatMap.mp hp
      obtain ⟨_, hvnot⟩ := List.mem_filter.mp hv
      have hvnot₂ : v ∉ path ++ [u] := by
        simpa using hvnot
      have hnd₂ : ((path ++ [u]) ++ [v]).Nodup := by
        rw [List.nodup_append]
        refine ⟨hnd, List.nodup_singleton v, ?_⟩
        intro x hx hmem
        obtain rfl := List.mem_singleton.mp hmem
        exact hvnot₂ hx
      exact ih (path ++ [u]) v hnd₂ p hp₂

theorem nodup_allSimplePaths {α : Type} (E : List (String × String × α)) (s t : String)
    (cutoff : Nat) : ∀ p ∈ allSimplePaths E s t cutoff, p.Nodup := by
  intro p hp
  exact nodup_simplePathsAux E t cutoff [] s (by simp) p hp

theorem mem_of_mem_simplePathsAux {α : Type} (E : List (String × String × α)) (t : String) :
    ∀ (fuel : Nat) (path : List String) (u : String),
    ∀ p ∈ simplePathsAux E t fuel path u, ∀ x ∈ p,
      x ∈ path ∨ x = u ∨ ∃ e ∈ E, x = e.2.1 := by
  intro fuel
  induction fuel with
  | zero =>
    intro path u p hp x hx
    rw [simplePathsAux] at hp
    by_cases hu : u = t
    · rw [if_pos hu] at hp
      obtain rfl := List.mem_singleton.mp hp
      rcases List.mem_append.mp hx with h | h
      · exact Or.inl h
      · exact Or.inr (Or.inl (List.mem_singleton.mp h))
    · rw [if_neg hu] at hp
      cases hp
  | succ fuel ih =>
    intro path u p hp x hx
    rw [simplePathsAux] at hp
    by_cases hu : u = t
    · rw [if_pos hu] at hp
      obtain rfl := List.mem_singleton.mp hp
      rcases List.mem_append.mp hx with h | h
      · exact Or.inl h
      · exact Or.inr (Or.inl (List.mem_singleton.mp h))
    · rw [if_neg hu] at hp
      obtain ⟨v, hv, hp₂⟩ := List.mem_flatMap.mp hp
      obtain ⟨hvsucc, _⟩ := List.mem_filter.mp hv
      have hvtgt : ∃ e ∈ E, v = e.2.1 := by
        rw [successors] at hvsucc
        obtain ⟨e, he, hev⟩ := List.mem_map.mp hvsucc
        exact ⟨e, (List.mem_filter.mp he).1, hev.symm⟩
      rcases ih (path ++ [u]) v p hp₂ x hx with h | h | h
      · rcases List.mem_append.mp h with h₂ | h₂
        · exact Or.inl h₂
        · exact Or.inr (Or.inl (List.mem_singleton.mp h₂))
      · subst h
        exact Or.inr (Or.inr hvtgt)
      · exact Or.inr (Or.inr h)

theorem perm_insertDescBy {α β : Type} [LinearOrder β] (key : α → β) (x : α)
    (l : List α) : (insertDescBy key x l).Perm (x :: l) := by
  induction l with
  | nil => simp [insertDescBy]
  | cons y ys ih =>
    rw [insertDescBy]
    by_cases h : key x < key y
    · rw [if_pos h]
      exact List.Perm.trans (List.Perm.cons y ih) (List.Perm.swap x y ys)
    · rw [if_neg h]

theorem sortDescBy_perm {α β : Type} [LinearOrder β] (key : α → β) (l : List α) :
    (sortDescBy key l).Perm l := by
  induction l with
  | nil => simp [sortDescBy]
  | cons x xs ih =>
    rw [sortDescBy]
    exact (perm_insertDescBy key x (sortDescBy key xs)).trans (List.Perm.cons x ih)

theorem sorted_insertDescBy {α β : Type} [LinearOrder β] (key : α → β) (x : α)
    (l : List α) (h : l.Pairwise (fun a b => key b ≤ key a)) :
    (insertDescBy key x l).Pairwise (fun a b => key b ≤ key a) := by
  induction l with
  | nil => simp [insertDescBy]
  | cons y ys ih =>
    rw [List.pairwise_cons] at h
    rw [insertDescBy]
    by_cases hlt : key x < key y
    · rw [if_pos hlt]
      rw [List.pairwise_cons]
      refine ⟨?_, ih h.2⟩
      intro z hz
      have : z ∈ x :: ys := (perm_insertDescBy key x ys).mem_iff.mp hz
      rcases List.mem_cons.mp this with rfl | hmem
      · exact le_of_lt hlt
      · exact h.1 z hmem
    · rw [if_neg hlt]
      rw [List.pairwise_cons]
      refine ⟨?_, List.pairwise_cons.mpr h⟩
      intro z hz
      rcases List.mem_cons.mp hz with rfl | hmem
      · exact le_of_not_lt hlt
      · exact le_trans (h.1 z hmem) (le_of_not_lt hlt)

theorem sortDescBy_sorted {α β : Type} [LinearOrder β] (key : α → β) (l : List α) :
    (sortDescBy key l).Pairwise (fun a b => key b ≤ key a) := by
  induction l with
  | nil => simp [sortDescBy]
  | cons x xs ih =>
    rw [sortDescBy]
    exact sorted_insertDescBy key x (sortDescBy key xs) ih

theorem find?_eq_some_split {α : Type} (p : α → Bool) (l : List α) (a : α)
    (h : l.find? p = some a) :
    p a = true ∧ ∃ l₁ l₂, l = l₁ ++ a :: l₂ ∧ ∀ x ∈ l₁, p x = false := by
  induction l with
  | nil => cases h
  | cons y ys ih =>
    by_cases hy : p y = true
    · rw [List.find?_cons_of_pos _ hy] at h
      obtain rfl := (Option.some.injEq .. ▸ h).symm
      exact ⟨hy, [], ys, rfl, by intro x hx; cases hx⟩
    · rw [List.find?_cons_of_neg _ (by simpa using hy)] at h
      obtain ⟨hpa, l₁, l₂, heq, hall⟩ := ih h
      refine ⟨hpa, y :: l₁, l₂, by rw [heq]; rfl, ?_⟩
      intro x hx
      rcases List.mem_cons.mp hx with rfl | hmem
      · simpa using hy
      · exact hall x hmem

namespace Minimal

theorem analyze_graph_of_error (nodes : List PyNode) (edges : List PyEdge) (m : String)
    (h : buildGraph nodes edges = .error m) :
    analyze_graph nodes edges = ⟨[], [], [], m⟩ := by
  rw [analyze_graph, h]

theorem analyze_graph_influence (nodes : List PyNode) (edges : List PyEdge) (G : Graph Int)
    (h : buildGraph nodes edges = .ok G) :
    (analyze_graph nodes edges).influence_scores =
      insertAll []
        (G.nodeIds.map (fun i => ((dictLookup i (idToLabel nodes)).getD i, inSum G i))) := by
  rw [analyze_graph, h]

theorem analyze_graph_error_empty (nodes : List PyNode) (edges : List PyEdge) (G : Graph Int)
    (h : buildGraph nodes edges = .ok G) : (analyze_graph nodes edges).error = "" := by
  rw [analyze_graph, h]

theorem analyze_graph_paths (nodes : List PyNode) (edges : List PyEdge) (G : Graph Int)
    (h : buildGraph nodes edges = .ok G) (hlen : 2 ≤ nodes.length) (s t : String)
    (hs : sourceId nodes = some s) (ht : targetId nodes = some t)
    (hhp : hasPathB G s t = true) (hmax : maxWeightPositive G.edges = true) :
    (analyze_graph nodes edges).positive_paths =
      ((allSimplePaths G.edges s t G.nodeIds.length).filter
        (pathAllB (fun w => decide (0 < w)) G.edges)).map (labelPath (idToLabel nodes)) ∧
    (analyze_graph nodes edges).negative_paths =
      ((allSimplePaths G.edges s t G.nodeIds.length).filter
        (pathAllB (fun w => decide (w < 0)) G.edges)).map (labelPath (idToLabel nodes)) := by
  rw [analyze_graph, h]
  dsimp only
  rw [if_pos hlen, hs, ht]
  dsimp only
  rw [hhp, hmax]
  exact ⟨rfl, rfl⟩

theorem analyze_graph_paths_empty_of_guard (nodes : List PyNode) (edges : List PyEdge)
    (G : Graph Int) (h : buildGraph nodes edges = .ok G)
    (hmax : maxWeightPositive G.edges = false) :
    (analyze_graph nodes edges).positive_paths = [] ∧
    (analyze_graph nodes edges).negative_paths = [] := by
  rw [analyze_graph, h]
  dsimp only
  constructor
  all_goals
    split
    · split
      · split
        · rw [hmax]
          rfl
        · rfl
      · rfl
    · rfl

end Minimal

/-- C5: on every well-formed input with a built graph, an auto-selected
source and an auto-selected target, the minimal analyzer's path
enumeration is exactly `allSimplePaths` with cutoff equal to the node
count of the graph (the enumeration is a total function, so it terminates
on cyclic graphs), and every enumerated path is duplicate-free. -/
theorem c5_enumeration_cutoff_and_simple (nodes : List PyNode) (edges : List PyEdge)
    (G : Graph Int) (s t : String) (hok : Minimal.buildGraph nodes edges = .ok G)
    (hs : Minimal.sourceId nodes = some s) (ht : Minimal.targetId nodes = some t) :
    Minimal.enumeratedPaths nodes edges = allSimplePaths G.edges s t G.nodeIds.length ∧
    ∀ p ∈ Minimal.enumeratedPaths nodes edges, p.Nodup := by
  have he : Minimal.enumeratedPaths nodes edges =
      allSimplePaths G.edges s t G.nodeIds.length := by
    rw [Minimal.enumeratedPaths, hok, hs, ht]
  refine ⟨he, ?_⟩
  rw [he]
  exact nodup_allSimplePaths G.edges s t G.nodeIds.length

/-- C5 witness: the cyclic graph `A→B→C→A` of the test suite; the
enumeration uses cutoff 3 (the node count) and emits only the simple path
`[A, B, C]`. -/
theorem c5_witness :
    Minimal.buildGraph
        [{ id := some "A" }, { id := some "B" }, { id := some "C" }]
        [{ source := some "A", target := some "B", type := some "+", weight := some 1 },
         { source := some "B", target := some "C", type := some "+", weight := some 1 },
         { source := some "C", target := some "A", type := some "+", weight := some 1 }] =
      .ok ⟨["A", "B", "C"], [("A", "B", 1), ("B", "C", 1), ("C", "A", 1)]⟩ ∧
    (Minimal.enumeratedPaths
        [{ id := some "A" }, { id := some "B" }, { id := some "C" }]
        [{ source := some "A", target := some "B", type := some "+", weight := some 1 },
         { source := some "B", target := some "C", type := some "+", weight := some 1 },
         { source := some "C", target := some "A", type := some "+", weight := some 1 }] =
      allSimplePaths
        (⟨["A", "B", "C"], [("A", "B", 1), ("B", "C", 1), ("C", "A", 1)]⟩ : Graph Int).edges
        "A" "C" 3 ∧
    ∀ p ∈ Minimal.enumeratedPaths
        [{ id := some "A" }, { id := some "B" }, { id := some "C" }]
        [{ source := some "A", target := some "B", type := some "+", weight := some 1 },
         { source := some "B", target := some "C", type := some "+", weight := some 1 },
         { source := some "C", target := some "A", type := some "+", weight := some 1 }],
      p.Nodup) :=
  ⟨by rfl,
   c5_enumeration_cutoff_and_simple _ _ _ "A" "C" (by rfl) (by rfl) (by rfl)⟩

/-- C6 counterexample: for the edge `A→B` of type `-` with input weight
`-3`, the minimal analyzer stores signed weight `-(-3) = 3` in the built
graph, while the claimed formula `-|weight|` gives `-3`. -/
theorem c6_counterexample :
    Minimal.buildGraph [{ id := some "A" }, { id := some "B" }]
        [{ source := some "A", target := some "B", type := some "-", weight := some (-3) }] =
      .ok ⟨["A", "B"], [("A", "B", 3)]⟩ ∧
    specSignedWeight
      { source := some "A", target := some "B", type := some "-", weight := some (-3) } = -3 ∧
    ((3 : Int) = -3 → False) := by
  refine ⟨by rfl, by decide, by decide⟩

/-- C6 amended: the causal-paths plugin stores exactly the claimed signed
weight `-|w|` for type `-` and `+|w|` otherwise; the minimal analyzer
instead stores `-w` for type `-` and `w` otherwise, which agrees with the
claimed formula exactly when the input weight is non-negative. -/
theorem c6_signed_weight (e : PyEdge) :
    Causal.signedWeight e = specSignedWeight e ∧
    Minimal.signedWeight e =
      (if e.type = some "-" then -(e.weight.getD 1) else e.weight.getD 1) ∧
    (0 ≤ e.weight.getD 1 → Minimal.signedWeight e = specSignedWeight e) := by
  refine ⟨?_, rfl, ?_⟩
  · rw [Causal.signedWeight, specSignedWeight]
    rcases ht : e.type with _ | ty
    · simp
    · by_cases hm : ty = "-"
      · simp [hm]
      · simp [hm]
  · intro hw
    rw [Minimal.signedWeight, specSignedWeight, abs_of_nonneg hw]

/-- C6 witness: on a non-negative input weight both derivations agree with
the spec formula. -/
theorem c6_witness :
    (0 ≤ (({ source := some "A", target := some "B", type := some "-",
              weight := some 2 } : PyEdge).weight.getD 1)) ∧
    Minimal.signedWeight
        { source := some "A", target := some "B", type := some "-", weight := some 2 } =
      specSignedWeight
        { source := some "A", target := some "B", type := some "-", weight := some 2 } ∧
    Causal.signedWeight
        { source := some "A", target := some "B", type := some "-", weight := some 2 } =
      specSignedWeight
        { source := some "A", target := some "B", type := some "-", weight := some 2 } :=
  ⟨by decide, (c6_signed_weight _).2.2 (by decide), (c6_signed_weight _).1⟩

/-- C7: the path-analysis plugin's distance weight is the absolute value
of the original weight with `1` substituted for an exact zero, and when no
simple path from source to target exists the shortest-path analysis
reports an explicit no-path result (`None` path and distance) instead of
failing. -/
theorem c7_distance_weights_and_no_path :
    (∀ w : Int, PathA.distanceWeight w = specDistanceWeight w) ∧
    ∀ (G : Graph (Int × String × Int)) (s t : String) (labels : List (String × String)),
      allSimplePaths G.edges s t G.nodeIds.length = [] →
      PathA.analyze_shortest_paths G s t labels =
        { shortest_path := none, shortest_distance := none, shortest_path_length := 0 } := by
  constructor
  · intro w
    rw [PathA.distanceWeight, specDistanceWeight]
    by_cases h : w = 0
    · simp [h]
    · simp [h]
  · intro G s t labels h
    rw [PathA.analyze_shortest_paths, h]
    rfl

/-- C7 witness: a two-node graph with no edges has no `A → B` path, and
the shortest-path analysis reports the explicit no-path result. -/
theorem c7_witness :
    allSimplePaths (⟨["A", "B"], []⟩ : Graph (Int × String × Int)).edges "A" "B"
        (⟨["A", "B"], []⟩ : Graph (Int × String × Int)).nodeIds.length = [] ∧
    PathA.analyze_shortest_paths (⟨["A", "B"], []⟩ : Graph (Int × String × Int)) "A" "B" [] =
      { shortest_path := none, shortest_distance := none, shortest_path_length := 0 } :=
  ⟨by decide, c7_distance_weights_and_no_path.2 _ "A" "B" [] (by decide)⟩

theorem maxWeightPositive_false_of_nonpos (nodes : List PyNode) (edges : List PyEdge)
    (G : Graph Int) (h : Minimal.buildGraph nodes edges = .ok G)
    (hneg : ∀ e ∈ edges, Minimal.signedWeight e ≤ 0) :
    Minimal.maxWeightPositive G.edges = false := by
  obtain ⟨_, hae⟩ := Minimal.buildGraph_ok_pieces nodes edges G h
  rw [Minimal.maxWeightPositive]
  rcases hm : (G.edges.map (fun e => e.2.2)).max? with _ | m
  · rw [hm]
  · rw [hm]
    have hmem := List.max?_mem max_choice hm
    obtain ⟨a, ha, hav⟩ := List.mem_map.mp hmem
    rcases Minimal.addEdges_mem edges G.nodeIds [] G.edges hae a ha with h₂ | ⟨e, he, hval⟩
    · cases h₂
    · have hle : m ≤ 0 := by
        rw [← hav, hval]
        exact hneg e he
      show decide (0 < m) = false
      rw [decide_eq_false_iff_not]
      exact not_lt.mpr hle

/-- C3 counterexample: on the all-negative chain `A→B(-,1), B→C(-,1)` the
enumeration would find the strictly negative simple path `[A, B, C]`
(both of its edges carry weight `-1 < 0`), but the minimal analyzer skips
enumeration entirely because no signed weight is positive, so
`negative_paths` is empty and the path is not reported. -/
theorem c3_counterexample :
    Minimal.analyze_graph
        [{ id := some "A" }, { id := some "B" }, { id := some "C" }]
        [{ source := some "A", target := some "B", type := some "-", weight := some 1 },
         { source := some "B", target := some "C", type := some "-", weight := some 1 }] =
      ⟨[("A", 0), ("B", -1), ("C", -1)], [], [], ""⟩ ∧
    Minimal.enumeratedPaths
        [{ id := some "A" }, { id := some "B" }, { id := some "C" }]
        [{ source := some "A", target := some "B", type := some "-", weight := some 1 },
         { source := some "B", target := some "C", type := some "-", weight := some 1 }] =
      [["A", "B", "C"]] ∧
    Minimal.getEdgeWeight [("A", "B", (-1 : Int)), ("B", "C", -1)] "A" "B" < 0 ∧
    Minimal.getEdgeWeight [("A", "B", (-1 : Int)), ("B", "C", -1)] "B" "C" < 0 := by
  refine ⟨by rfl, by rfl, by decide, by decide⟩

/-- C3 amended: when every input edge's signed weight is non-positive the
minimal analyzer does not enumerate paths at all — the guard
`max(all_weights) > 0` fails — so both path lists are empty (even when an
all-negative source-to-target path exists); influence scores are still
computed and the error string is empty. -/
theorem c3_no_enumeration_when_nonpos (nodes : List PyNode) (edges : List PyEdge)
    (hwf : wellFormedB nodes edges = true) (_hlen : 2 ≤ nodes.length) (_hne : edges ≠ [])
    (hneg : ∀ e ∈ edges, Minimal.signedWeight e ≤ 0) :
    (Minimal.analyze_graph nodes edges).positive_paths = [] ∧
    (Minimal.analyze_graph nodes edges).negative_paths = [] ∧
    (Minimal.analyze_graph nodes edges).error = "" := by
  obtain ⟨G, hok⟩ := Minimal.buildGraph_ok_of_wf nodes edges hwf
  obtain ⟨h₁, h₂⟩ := Minimal.analyze_graph_paths_empty_of_guard nodes edges G hok
    (maxWeightPositive_false_of_nonpos nodes edges G hok hneg)
  exact ⟨h₁, h₂, Minimal.analyze_graph_error_empty nodes edges G hok⟩

/-- C3 witness: the amended statement applied to the all-negative chain of
the repository's own test suite. -/
theorem c3_witness :
    wellFormedB
        [{ id := some "A" }, { id := some "B" }, { id := some "C" }]
        [{ source := some "A", target := some "B", type := some "-", weight := some 1 },
         { source := some "B", target := some "C", type := some "-", weight := some 1 }] = true ∧
    (Minimal.analyze_graph
        [{ id := some "A" }, { id := some "B" }, { id := some "C" }]
        [{ source := some "A", target := some "B", type := some "-", weight := some 1 },
         { source := some "B", target := some "C", type := some "-", weight := some 1 }]).positive_paths = [] ∧
    (Minimal.analyze_graph
        [{ id := some "A" }, { id := some "B" }, { id := some "C" }]
        [{ source := some "A", target := some "B", type := some "-", weight := some 1 },
         { source := some "B", target := some "C", type := some "-", weight := some 1 }]).negative_paths = [] ∧
    (Minimal.analyze_graph
        [{ id := some "A" }, { id := some "B" }, { id := some "C" }]
        [{ source := some "A", target := some "B", type := some "-", weight := some 1 },
         { source := some "B", target := some "C", type := some "-", weight := some 1 }]).error = "" := by
  have h := c3_no_enumeration_when_nonpos
    [{ id := some "A" }, { id := some "B" }, { id := some "C" }]
    [{ source := some "A", target := some "B", type := some "-", weight := some 1 },
     { source := some "B", target := some "C", type := some "-", weight := some 1 }]
    (by decide) (by decide) (by decide) (by decide)
  exact ⟨by decide, h.1, h.2.1, h.2.2⟩

/-- C4: the minimal analyzer is total (the embedding returns a result for
every input): on well-formed input the error string is empty, and on
malformed input (a node without an id, an edge without source or target,
or an edge referencing an unknown node — exactly the failure of
`wellFormedB`) all result collections are empty and the error string is
one of the construction messages, hence non-empty. -/
theorem c4_error_boundary (nodes : List PyNode) (edges : List PyEdge) :
    (wellFormedB nodes edges = true → (Minimal.analyze_graph nodes edges).error = "") ∧
    (wellFormedB nodes edges = false →
      (Minimal.analyze_graph nodes edges).influence_scores = [] ∧
      (Minimal.analyze_graph nodes edges).positive_paths = [] ∧
      (Minimal.analyze_graph nodes edges).negative_paths = [] ∧
      (Minimal.analyze_graph nodes edges).error ≠ "") := by
  constructor
  · intro hwf
    obtain ⟨G, hok⟩ := Minimal.buildGraph_ok_of_wf nodes edges hwf
    exact Minimal.analyze_graph_error_empty nodes edges G hok
  · intro hwf
    rcases hb : Minimal.buildGraph nodes edges with m | G
    · rw [Minimal.analyze_graph_of_error nodes edges m hb]
      refine ⟨rfl, rfl, rfl, ?_⟩
      rcases Minimal.buildGraph_error_msg nodes edges m hb with h | h | h <;>
        rw [h] <;> decide
    · have := Minimal.buildGraph_ok_wf nodes edges G hb
      rw [hwf] at this
      cases this

/-- C4 witness: a well-formed input yields an empty error string; an edge
referencing the unknown node `C` yields empty collections and a non-empty
error. -/
theorem c4_witness :
    (wellFormedB [{ id := some "A" }, { id := some "B" }]
        [{ source := some "A", target := some "B", weight := some 1 }] = true ∧
      (Minimal.analyze_graph [{ id := some "A" }, { id := some "B" }]
        [{ source := some "A", target := some "B", weight := some 1 }]).error = "") ∧
    (wellFormedB [{ id := some "A" }, { id := some "B" }]
        [{ source := some "A", target := some "C", weight := some 1 }] = false ∧
      (Minimal.analyze_graph [{ id := some "A" }, { id := some "B" }]
        [{ source := some "A", target := some "C", weight := some 1 }]).influence_scores = [] ∧
      (Minimal.analyze_graph [{ id := some "A" }, { id := some "B" }]
        [{ source := some "A", target := some "C", weight := some 1 }]).positive_paths = [] ∧
      (Minimal.analyze_graph [{ id := some "A" }, { id := some "B" }]
        [{ source := some "A", target := some "C", weight := some 1 }]).negative_paths = [] ∧
      (Minimal.analyze_graph [{ id := some "A" }, { id := some "B" }]
        [{ source := some "A", target := some "C", weight := some 1 }]).error ≠ "") :=
  ⟨⟨by decide, (c4_error_boundary _ _).1 (by decide)⟩,
   ⟨by decide, (c4_error_boundary _ _).2 (by decide)⟩⟩

namespace PathA

theorem paAnalyze_ok (nodes : List PyNode) (edges : List PyEdge) (params : Params)
    (G : Graph (Int × String × Int)) (s t : String) (hlen : 2 ≤ nodes.length)
    (hok : buildGraph nodes edges = .ok G)
    (hs : resolveSource params (nodeIdList nodes) = some s)
    (ht : adjustTarget (resolveSource params (nodeIdList nodes))
      (resolveTarget params (nodeIdList nodes)) (nodeIdList nodes) = some t) :
    analyze_graph nodes edges params =
      .ok { source_id := some s, target_id := some t,
            shortest := analyze_shortest_paths G s t (idToLabel nodes),
            all_paths := analyze_all_paths G s t params.maxPathLength params.pathLimit
              (idToLabel nodes) } := by
  have hne : nodes.isEmpty = false := by
    cases nodes with
    | nil => simp at hlen
    | cons n rest => rfl
  rw [analyze_graph, hne]
  dsimp only
  rw [if_neg (by omega : ¬nodes.length < 2), hok]
  dsimp only
  rw [ht, hs]
  dsimp only
  rfl

end PathA

/-- C10: in the path-analysis plugin, when the resolved source and target
coincide and some node id differs from the source, the analyzer silently
replaces the target with the first node id in input order that differs
from the source and proceeds with shortest-path and all-path analysis for
that substituted pair (no error, no skipped enumeration). -/
theorem c10_silent_target_substitution (nodes : List PyNode) (edges : List PyEdge)
    (params : PathA.Params) (sv v : String) (hlen : 2 ≤ nodes.length)
    (hs : PathA.resolveSource params (nodeIdList nodes) = some sv)
    (ht : PathA.resolveTarget params (nodeIdList nodes) = some sv)
    (hv : v ∈ nodeIdList nodes) (hne : v ≠ sv) :
    ∃ u l₁ l₂,
      PathA.adjustTarget (some sv) (some sv) (nodeIdList nodes) = some u ∧
      u ≠ sv ∧ nodeIdList nodes = l₁ ++ u :: l₂ ∧ (∀ x ∈ l₁, x = sv) ∧
      ∀ G, PathA.buildGraph nodes edges = .ok G →
        PathA.analyze_graph nodes edges params =
          .ok { source_id := some sv, target_id := some u,
                shortest := PathA.analyze_shortest_paths G sv u (idToLabel nodes),
                all_paths := PathA.analyze_all_paths G sv u params.maxPathLength
                  params.pathLimit (idToLabel nodes) } := by
  rcases hf : (nodeIdList nodes).find? (fun i => decide (some i ≠ some sv)) with _ | u
  · exfalso
    rw [List.find?_eq_none] at hf
    exact hf v hv (by simpa using hne)
  · obtain ⟨hpu, l₁, l₂, heq, hall⟩ := find?_eq_some_split _ _ u hf
    have hu : u ≠ sv := by simpa using hpu
    have hadj : PathA.adjustTarget (some sv) (some sv) (nodeIdList nodes) = some u := by
      rw [PathA.adjustTarget, if_pos rfl, hf]
    refine ⟨u, l₁, l₂, hadj, hu, heq, ?_, ?_⟩
    · intro x hx
      have := hall x hx
      simpa using this
    · intro G hG
      refine PathA.paAnalyze_ok nodes edges params G sv u hlen hG hs ?_
      rw [hs, ht]
      exact hadj

/-- C10 witness: with both the source and target parameters resolving to
node `C`, the analyzer substitutes `A` (the first id differing from `C`)
as the target and proceeds. -/
theorem c10_witness :
    (2 ≤ ([{ id := some "A" }, { id := some "B" }, { id := some "C" }] : List PyNode).length) ∧
    PathA.resolveSource { sourceNode := some "C", targetNode := some "C" }
        (nodeIdList [{ id := some "A" }, { id := some "B" }, { id := some "C" }]) = some "C" ∧
    PathA.resolveTarget { sourceNode := some "C", targetNode := some "C" }
        (nodeIdList [{ id := some "A" }, { id := some "B" }, { id := some "C" }]) = some "C" ∧
    ∃ u l₁ l₂,
      PathA.adjustTarget (some "C") (some "C")
          (nodeIdList [{ id := some "A" }, { id := some "B" }, { id := some "C" }]) = some u ∧
      u ≠ "C" ∧
      nodeIdList [{ id := some "A" }, { id := some "B" }, { id := some "C" }] = l₁ ++ u :: l₂ ∧
      (∀ x ∈ l₁, x = "C") ∧
      ∀ G, PathA.buildGraph [{ id := some "A" }, { id := some "B" }, { id := some "C" }]
          [{ source := some "A", target := some "B", weight := some 1 }] = .ok G →
        PathA.analyze_graph [{ id := some "A" }, { id := some "B" }, { id := some "C" }]
            [{ source := some "A", target := some "B", weight := some 1 }]
            { sourceNode := some "C", targetNode := some "C" } =
          .ok { source_id := some "C", target_id := some u,
                shortest := PathA.analyze_shortest_paths G "C" u
                  (idToLabel [{ id := some "A" }, { id := some "B" }, { id := some "C" }]),
                all_paths := PathA.analyze_all_paths G "C" u
                  ({ sourceNode := some "C", targetNode := some "C" } : PathA.Params).maxPathLength
                  ({ sourceNode := some "C", targetNode := some "C" } : PathA.Params).pathLimit
                  (idToLabel [{ id := some "A" }, { id := some "B" }, { id := some "C" }]) } :=
  ⟨by decide, by decide, by decide,
   c10_silent_target_substitution _
     [{ source := some "A", target := some "B", weight := some 1 }] _ "C" "A"
     (by decide) (by decide) (by decide) (by decide) (by decide)⟩

theorem length_filter_lt_of_mem_not {α : Type} (l : List α) (p : α → Bool) (a : α)
    (ha : a ∈ l) (hna : ¬p a = true) : (l.filter p).length < l.length := by
  induction l with
  | nil => cases ha
  | cons x xs ih =>
    rcases List.mem_cons.mp ha with rfl | hmem
    · rw [List.filter_cons_of_neg (by simpa using hna)]
      have := List.length_filter_le p xs
      simp only [List.length_cons]
      omega
    · by_cases hx : p x = true
      · rw [List.filter_cons_of_pos hx]
        have := ih hmem
        simp only [List.length_cons]
        omega
      · rw [List.filter_cons_of_neg (by simpa using hx)]
        have := ih hmem
        simp only [List.length_cons]
        omega

/-- C8 amended: a node appears in the critical list only if it has a
strictly positive betweenness score and lies in the top quartile (fewer
than `count // 4` — at least 1 — nodes score strictly higher); the
converse fails for ties: the list consists of the first
`critical_threshold` entries of the stable descending sort, so a node
tied with the quartile-cutoff entry can be left out. -/
theorem c8_critical_node_selection (scores : List (String × ℚ)) :
    ∀ name ∈ PathA.criticalNodes scores, ∃ s : ℚ, (name, s) ∈ scores ∧ 0 < s ∧
      (scores.filter (fun q => s < q.2)).length < PathA.criticalThreshold scores.length := by
  intro name hmem
  rw [PathA.criticalNodes] at hmem
  by_cases hemp : scores.isEmpty
  · rw [if_pos hemp] at hmem
    cases hmem
  · rw [if_neg hemp] at hmem
    dsimp only at hmem
    obtain ⟨p, hpmem, hpname⟩ := List.mem_map.mp hmem
    obtain ⟨hptake, hppos⟩ := List.mem_filter.mp hpmem
    have hperm := sortDescBy_perm (fun q => q.2) scores
    have hlen := hperm.length_eq
    refine ⟨p.2, ?_, by simpa using hppos, ?_⟩
    · have hmem₂ : p ∈ sortDescBy (fun q => q.2) scores := List.mem_of_mem_take hptake
      rw [← hpname, Prod.mk.eta]
      exact hperm.subset hmem₂
    · have hfilter : (scores.filter (fun q => p.2 < q.2)).length =
          ((sortDescBy (fun q => q.2) scores).filter (fun q => p.2 < q.2)).length :=
        (hperm.filter (fun q => p.2 < q.2)).length_eq.symm
      rw [hfilter, ← hlen]
      set sorted := sortDescBy (fun q => q.2) scores with hsorted
      set th := PathA.criticalThreshold sorted.length with hth
      have hsplit : sorted = sorted.take th ++ sorted.drop th :=
        (List.take_append_drop th sorted).symm
      have hpw := sortDescBy_sorted (fun q => q.2) scores
      rw [← hsorted] at hpw
      rw [hsplit, List.pairwise_append] at hpw
      have hdrop : (sorted.drop th).filter (fun q => p.2 < q.2) = [] := by
        rw [List.filter_eq_nil_iff]
        intro b hb
        have := hpw.2.2 p hptake b hb
        simp only [decide_eq_true_eq]
        exact not_lt.mpr this
      have htake : ((sorted.take th).filter (fun q => p.2 < q.2)).length <
          (sorted.take th).length := by
        refine length_filter_lt_of_mem_not (sorted.take th) _ p hptake ?_
        simp
      have htakelen : (sorted.take th).length ≤ th := by
        rw [List.length_take]
        omega
      have hthpos : 1 ≤ th := by
        rw [hth, PathA.criticalThreshold]
        have hlenpos : 1 ≤ sorted.length := by
          rw [hlen]
          have hne₂ : scores ≠ [] := by
            simpa [List.isEmpty_iff] using hemp
          have := List.length_pos.mpr hne₂
          omega
        split
        · omega
        · omega
      have hsum : (sorted.filter (fun q => p.2 < q.2)).length =
          ((sorted.take th).filter (fun q => p.2 < q.2)).length +
          ((sorted.drop th).filter (fun q => p.2 < q.2)).length := by
        conv_lhs => rw [hsplit]
        rw [List.filter_append, List.length_append]
      rw [hsum, hdrop]
      simp only [List.length_nil]
      omega

/-- C8 counterexample: with betweenness scores `A:1, B:1, C:0, D:0` the
quartile size is `4 // 4 = 1`; node `B` is tied with the cutoff entry `A`
(equal strictly positive score, and no node scores strictly higher than
it), yet only `A` is flagged critical — ties at the cutoff are excluded,
not included. -/
theorem c8_counterexample :
    PathA.criticalNodes [("A", 1), ("B", 1), ("C", 0), ("D", 0)] = ["A"] ∧
    ("B" ∈ PathA.criticalNodes [("A", 1), ("B", 1), ("C", 0), ("D", 0)] → False) ∧
    ("B", (1 : ℚ)) ∈ ([("A", 1), ("B", 1), ("C", 0), ("D", 0)] : List (String × ℚ)) ∧
    (0 : ℚ) < 1 ∧
    (([("A", 1), ("B", 1), ("C", 0), ("D", 0)] : List (String × ℚ)).filter
      (fun q => (1 : ℚ) < q.2)).length <
      PathA.criticalThreshold ([("A", 1), ("B", 1), ("C", 0), ("D", 0)] : List (String × ℚ)).length := by
  refine ⟨by decide, by decide, by decide, by decide, by decide⟩

/-- C8 witness: the necessity direction applied to the sole critical node
of the counterexample's score table. -/
theorem c8_witness :
    "A" ∈ PathA.criticalNodes [("A", 1), ("B", 1), ("C", 0), ("D", 0)] ∧
    ∃ s : ℚ, ("A", s) ∈ ([("A", 1), ("B", 1), ("C", 0), ("D", 0)] : List (String × ℚ)) ∧
      0 < s ∧
      (([("A", 1), ("B", 1), ("C", 0), ("D", 0)] : List (String × ℚ)).filter
        (fun q => s < q.2)).length <
        PathA.criticalThreshold
          ([("A", 1), ("B", 1), ("C", 0), ("D", 0)] : List (String × ℚ)).length :=
  ⟨by decide, c8_critical_node_selection [("A", 1), ("B", 1), ("C", 0), ("D", 0)] "A" (by decide)⟩

theorem nodeIdList_eq_map (nodes : List PyNode) (h : ∀ n ∈ nodes, n.id.isSome) :
    nodeIdList nodes = nodes.map (fun n => n.id.getD "") := by
  induction nodes with
  | nil => rfl
  | cons n rest ih =>
    have hn := h n (List.mem_cons_self _ _)
    rcases hi : n.id with _ | i
    · rw [hi] at hn
      cases hn
    · show (n :: rest).filterMap (fun m => m.id) = _
      rw [List.filterMap_cons, hi, List.map_cons, hi]
      have := ih (fun m hm => h m (List.mem_cons_of_mem _ hm))
      rw [nodeIdList] at this
      rw [this]
      rfl

theorem keys_idPairs (nodes : List PyNode) :
    ((nodes.filterMap (fun n => n.id.map (fun i => (i, n.label.getD i)))).map Prod.fst) =
      nodeIdList nodes := by
  induction nodes with
  | nil => rfl
  | cons n rest ih =>
    show _ = List.filterMap (fun m => m.id) (n :: rest)
    rw [List.filterMap_cons, List.filterMap_cons]
    rcases hi : n.id with _ | i
    · rw [Option.map_none']
      dsimp only
      exact ih
    · rw [Option.map_some']
      dsimp only
      rw [List.map_cons, ih]
      rfl

theorem dictLookup_idToLabel (nodes : List PyNode) (hnd : (nodeIdList nodes).Nodup)
    (n : PyNode) (hn : n ∈ nodes) (i : String) (hi : n.id = some i) :
    dictLookup i (idToLabel nodes) = some (resolvedLabel n) := by
  have hmem : (i, n.label.getD i) ∈
      nodes.filterMap (fun n => n.id.map (fun i => (i, n.label.getD i))) :=
    List.mem_filterMap.mpr ⟨n, hn, by rw [hi]; rfl⟩
  have hkeys : ((nodes.filterMap (fun n => n.id.map (fun i => (i, n.label.getD i)))).map
      Prod.fst).Nodup := by
    rw [keys_idPairs]
    exact hnd
  rw [idToLabel, dictLookup_insertAll, lastVal_of_nodup i (n.label.getD i) _ hkeys hmem]
  rw [resolvedLabel, hi]
  rfl

theorem influence_as_node_map (nodes : List PyNode) (edges : List PyEdge) (G : Graph Int)
    (hok : Minimal.buildGraph nodes edges = .ok G) (hwf : wellFormedB nodes edges = true)
    (hnd : (nodeIdList nodes).Nodup) :
    (Minimal.analyze_graph nodes edges).influence_scores =
      insertAll [] (nodes.map (fun n => (resolvedLabel n, Minimal.inSum G (n.id.getD "")))) := by
  rw [Minimal.analyze_graph_influence nodes edges G hok]
  congr 1
  have hids : ∀ n ∈ nodes, n.id.isSome := by
    rw [wellFormedB, Bool.and_eq_true, List.all_eq_true] at hwf
    exact fun n hn => hwf.1 n hn
  rw [Minimal.buildGraph_nodeIds nodes edges G hok hnd, nodeIdList_eq_map nodes hids,
    List.map_map]
  refine List.map_eq_map_iff.mpr ?_
  intro n hn
  obtain ⟨i, hi⟩ := Option.isSome_iff_exists.mp (hids n hn)
  dsimp only [Function.comp]
  rw [hi]
  dsimp only [Option.getD_some]
  rw [dictLookup_idToLabel nodes hnd n hn i hi]
  rfl

theorem inSum_eq_incomingSum (nodes : List PyNode) (edges : List PyEdge) (G : Graph Int)
    (hok : Minimal.buildGraph nodes edges = .ok G) (hwf : wellFormedB nodes edges = true)
    (hpnd : (edges.map (fun e => (e.source, e.target))).Nodup) (i : String) :
    Minimal.inSum G i = incomingSum edges i := by
  have hids : ∀ e ∈ edges, e.target.isSome ∧ e.source.isSome := by
    rw [wellFormedB, Bool.and_eq_true, List.all_eq_true, List.all_eq_true] at hwf
    intro e he
    have := hwf.2 e he
    rcases hs : e.source with _ | s <;> rcases ht : e.target with _ | t <;>
      rw [hs, ht] at this <;> dsimp only at this
    · cases this
    · cases this
    · cases this
    · exact ⟨rfl, rfl⟩
  rw [Minimal.inSum, Minimal.buildGraph_edges nodes edges G hok hpnd, incomingSum]
  rw [List.filter_map]
  congr 1
  rw [List.map_map]
  congr 1
  refine List.filter_congr ?_
  intro e he
  obtain ⟨htg, _⟩ := hids e he
  obtain ⟨t, ht⟩ := Option.isSome_iff_exists.mp htg
  dsimp only [Function.comp]
  rw [ht]
  simp

/-- C1: on well-formed input denoting a graph (distinct node ids, distinct
directed edge pairs, distinct display labels), the influence score the
minimal analyzer reports under each node's label is exactly the sum of the
signed weights of the input edges targeting that node — exactly `0` when
no input edge targets it; the arithmetic is exact integer arithmetic. -/
theorem c1_influence_scores (nodes : List PyNode) (edges : List PyEdge)
    (hwf : wellFormedB nodes edges = true) (hnd : (nodeIdList nodes).Nodup)
    (hlab : (resolvedLabels nodes).Nodup)
    (hpnd : (edges.map (fun e => (e.source, e.target))).Nodup) :
    ∀ n ∈ nodes, ∀ i, n.id = some i →
      dictLookup (resolvedLabel n) (Minimal.analyze_graph nodes edges).influence_scores =
        some (incomingSum edges i) ∧
      (edges.filter (fun e => e.target = some i) = [] →
        dictLookup (resolvedLabel n) (Minimal.analyze_graph nodes edges).influence_scores =
          some 0) := by
  intro n hn i hi
  obtain ⟨G, hok⟩ := Minimal.buildGraph_ok_of_wf nodes edges hwf
  rw [influence_as_node_map nodes edges G hok hwf hnd, dictLookup_insertAll]
  have hkeys : ((nodes.map (fun n => (resolvedLabel n, Minimal.inSum G (n.id.getD "")))).map
      Prod.fst).Nodup := by
    rw [List.map_map]
    exact hlab
  have hmem : (resolvedLabel n, Minimal.inSum G (n.id.getD "")) ∈
      nodes.map (fun n => (resolvedLabel n, Minimal.inSum G (n.id.getD ""))) :=
    List.mem_map_of_mem _ hn
  rw [lastVal_of_nodup _ _ _ hkeys hmem]
  have hsum : Minimal.inSum G (n.id.getD "") = incomingSum edges i := by
    rw [hi]
    dsimp only [Option.getD_some]
    exact inSum_eq_incomingSum nodes edges G hok hwf hpnd i
  constructor
  · rw [hsum]
  · intro hempty
    rw [hsum, incomingSum, hempty]
    rfl

/-- C1 witness: the simple chain `A→B(+,1), B→C(+,2)` of the test suite:
node `B` scores `1` and node `A` (no incoming edges) scores `0`. -/
theorem c1_witness :
    wellFormedB
        [{ id := some "A" }, { id := some "B" }, { id := some "C" }]
        [{ source := some "A", target := some "B", type := some "+", weight := some 1 },
         { source := some "B", target := some "C", type := some "+", weight := some 2 }] = true ∧
    dictLookup "B"
        (Minimal.analyze_graph
          [{ id := some "A" }, { id := some "B" }, { id := some "C" }]
          [{ source := some "A", target := some "B", type := some "+", weight := some 1 },
           { source := some "B", target := some "C", type := some "+", weight := some 2 }]).influence_scores =
      some (incomingSum
        [{ source := some "A", target := some "B", type := some "+", weight := some 1 },
         { source := some "B", target := some "C", type := some "+", weight := some 2 }] "B") ∧
    dictLookup "A"
        (Minimal.analyze_graph
          [{ id := some "A" }, { id := some "B" }, { id := some "C" }]
          [{ source := some "A", target := some "B", type := some "+", weight := some 1 },
           { source := some "B", target := some "C", type := some "+", weight := some 2 }]).influence_scores =
      some 0 :=
  ⟨by decide,
   (c1_influence_scores _ _ (by decide) (by decide) (by decide) (by decide)
     { id := some "B" } (by decide) "B" (by decide)).1,
   (c1_influence_scores _ _ (by decide) (by decide) (by decide) (by decide)
     { id := some "A" } (by decide) "A" (by decide)).2 (by decide)⟩

/-- C9: the minimal analyzer keys its influence mapping by resolved label,
not node id — when two distinct nodes share a label `L` (and no later node
reuses it), the result holds a single entry for `L` carrying the score of
the later of the two nodes, and the mapping has strictly fewer entries
than the input has nodes. -/
theorem c9_label_keyed_collision (pre mid post : List PyNode) (n₁ n₂ : PyNode)
    (edges : List PyEdge) (L i₂ : String)
    (hwf : wellFormedB (pre ++ n₁ :: mid ++ n₂ :: post) edges = true)
    (hnd : (nodeIdList (pre ++ n₁ :: mid ++ n₂ :: post)).Nodup)
    (hpnd : (edges.map (fun e => (e.source, e.target))).Nodup)
    (h₁ : resolvedLabel n₁ = L) (h₂ : resolvedLabel n₂ = L)
    (hpost : ∀ x ∈ post, resolvedLabel x ≠ L) (hid₂ : n₂.id = some i₂) :
    countKey L
        (Minimal.analyze_graph (pre ++ n₁ :: mid ++ n₂ :: post) edges).influence_scores = 1 ∧
    dictLookup L
        (Minimal.analyze_graph (pre ++ n₁ :: mid ++ n₂ :: post) edges).influence_scores =
      some (incomingSum edges i₂) ∧
    (Minimal.analyze_graph (pre ++ n₁ :: mid ++ n₂ :: post) edges).influence_scores.length <
      (pre ++ n₁ :: mid ++ n₂ :: post).length := by
  obtain ⟨G, hok⟩ := Minimal.buildGraph_ok_of_wf _ edges hwf
  have hinf := influence_as_node_map _ edges G hok hwf hnd
  set nodes := pre ++ n₁ :: mid ++ n₂ :: post with hnodes
  set F := fun n : PyNode => (resolvedLabel n, Minimal.inSum G (n.id.getD "")) with hF
  have hsplit : nodes = (pre ++ n₁ :: mid) ++ n₂ :: post := by
    rw [hnodes]
  have hlast : lastVal L (nodes.map F) = some (Minimal.inSum G (n₂.id.getD "")) := by
    rw [hsplit, List.map_append, lastVal_append, List.map_cons, lastVal]
    have hnone : lastVal L (post.map F) = none := by
      refine lastVal_eq_none L _ ?_
      rw [List.map_map]
      intro hcon
      obtain ⟨x, hx, hxl⟩ := List.mem_map.mp hcon
      exact hpost x hx hxl
    rw [hnone, if_pos h₂]
  have hlook : dictLookup L
      (Minimal.analyze_graph nodes edges).influence_scores =
      some (Minimal.inSum G (n₂.id.getD "")) := by
    rw [hinf, dictLookup_insertAll, hlast]
  have hsum : Minimal.inSum G (n₂.id.getD "") = incomingSum edges i₂ := by
    rw [hid₂]
    dsimp only [Option.getD_some]
    exact inSum_eq_incomingSum nodes edges G hok hwf hpnd i₂
  have hkeysnd : ((insertAll [] (nodes.map F)).map Prod.fst).Nodup :=
    nodup_keys_insertAll [] (nodes.map F) (by simp)
  refine ⟨?_, by rw [hlook, hsum], ?_⟩
  · rw [hinf]
    exact countKey_eq_one L _ _ hkeysnd (by rw [← hinf, hlook])
  · rw [hinf]
    have hdup : ¬((nodes.map F).map Prod.fst).Nodup := by
      rw [List.map_map]
      have hmapeq : (Prod.fst ∘ F) = resolvedLabel := rfl
      rw [hmapeq]
      intro hndl
      rw [hsplit, List.map_append] at hndl
      have hdisj := (List.nodup_append.mp hndl).2.2
      have hmemL : L ∈ (pre ++ n₁ :: mid).map resolvedLabel :=
        List.mem_map.mpr ⟨n₁, by simp, h₁⟩
      have hmemR : L ∈ (n₂ :: post).map resolvedLabel := by
        rw [List.map_cons, h₂]
        exact List.mem_cons_self _ _
      exact hdisj hmemL hmemR
    have := length_insertAll_lt_of_dup [] (nodes.map F) hdup
    rw [List.length_map] at this
    simpa using this

/-- C9 witness: two nodes `A` and `B` sharing the label `X`: the influence
mapping has a single `X` entry carrying node `B`'s score, one entry fewer
than the graph has nodes. -/
theorem c9_witness :
    countKey "X"
        (Minimal.analyze_graph
          [{ id := some "A", label := some "X" }, { id := some "B", label := some "X" }]
          [{ source := some "A", target := some "B", weight := some 1 }]).influence_scores = 1 ∧
    dictLookup "X"
        (Minimal.analyze_graph
          [{ id := some "A", label := some "X" }, { id := some "B", label := some "X" }]
          [{ source := some "A", target := some "B", weight := some 1 }]).influence_scores =
      some (incomingSum [{ source := some "A", target := some "B", weight := some 1 }] "B") ∧
    (Minimal.analyze_graph
        [{ id := some "A", label := some "X" }, { id := some "B", label := some "X" }]
        [{ source := some "A", target := some "B", weight := some 1 }]).influence_scores.length <
      ([{ id := some "A", label := some "X" }, { id := some "B", label := some "X" }] :
        List PyNode).length :=
  c9_label_keyed_collision [] [] [] { id := some "A", label := some "X" }
    { id := some "B", label := some "X" }
    [{ source := some "A", target := some "B", weight := some 1 }] "X" "B"
    (by decide) (by decide) (by decide) (by decide) (by decide) (by decide) (by decide)

theorem map_inj_on_eq {α β : Type} (f : α → β) (l₁ l₂ : List α)
    (hinj : ∀ x ∈ l₁, ∀ y ∈ l₂, f x = f y → x = y) (h : l₁.map f = l₂.map f) :
    l₁ = l₂ := by
  induction l₁ generalizing l₂ with
  | nil =>
    cases l₂ with
    | nil => rfl
    | cons y ys => cases h
  | cons x xs ih =>
    cases l₂ with
    | nil => cases h
    | cons y ys =>
      rw [List.map_cons, List.map_cons] at h
      obtain ⟨hxy, hrest⟩ := List.cons.injEq .. ▸ h
      have hx : x = y :=
        hinj x (List.mem_cons_self _ _) y (List.mem_cons_self _ _) hxy
      rw [hx, ih ys (fun a ha b hb => hinj a (List.mem_cons_of_mem _ ha) b
        (List.mem_cons_of_mem _ hb)) hrest]

theorem mem_nodeIdList_elim (nodes : List PyNode) (i : String) (h : i ∈ nodeIdList nodes) :
    ∃ n ∈ nodes, n.id = some i := by
  obtain ⟨n, hn, hni⟩ := List.mem_filterMap.mp h
  exact ⟨n, hn, hni⟩

theorem labelKey_injOn (nodes : List PyNode) (hnd : (nodeIdList nodes).Nodup)
    (hlab : (resolvedLabels nodes).Nodup) (i₁ i₂ : String)
    (h₁ : i₁ ∈ nodeIdList nodes) (h₂ : i₂ ∈ nodeIdList nodes)
    (heq : (dictLookup i₁ (idToLabel nodes)).getD i₁ =
      (dictLookup i₂ (idToLabel nodes)).getD i₂) : i₁ = i₂ := by
  obtain ⟨n₁, hn₁, hni₁⟩ := mem_nodeIdList_elim nodes i₁ h₁
  obtain ⟨n₂, hn₂, hni₂⟩ := mem_nodeIdList_elim nodes i₂ h₂
  rw [dictLookup_idToLabel nodes hnd n₁ hn₁ i₁ hni₁,
    dictLookup_idToLabel nodes hnd n₂ hn₂ i₂ hni₂, Option.getD_some, Option.getD_some] at heq
  have : n₁ = n₂ := List.inj_on_of_nodup_map hlab hn₁ hn₂ heq
  rw [this] at hni₁
  rw [hni₁] at hni₂
  exact Option.some.injEq .. ▸ hni₂

theorem labelPath_inj_on (nodes : List PyNode) (hnd : (nodeIdList nodes).Nodup)
    (hlab : (resolvedLabels nodes).Nodup) (p q : List String)
    (hp : ∀ x ∈ p, x ∈ nodeIdList nodes) (hq : ∀ x ∈ q, x ∈ nodeIdList nodes)
    (h : labelPath (idToLabel nodes) p = labelPath (idToLabel nodes) q) : p = q := by
  refine map_inj_on_eq _ p q ?_ h
  intro x hx y hy hxy
  exact labelKey_injOn nodes hnd hlab x y (hp x hx) (hq y hy) hxy

namespace Minimal

theorem sourceId_mem (nodes : List PyNode) (s : String) (h : sourceId nodes = some s) :
    s ∈ nodeIdList nodes := by
  cases nodes with
  | nil => cases h
  | cons n rest =>
    rw [sourceId] at h
    show s ∈ List.filterMap (fun m => m.id) (n :: rest)
    rw [List.filterMap_cons, h]
    exact List.mem_cons_self _ _

theorem pathElems_mem (nodes : List PyNode) (edges : List PyEdge) (G : Graph Int)
    (s t : String) (c : Nat) (hok : buildGraph nodes edges = .ok G)
    (hs : sourceId nodes = some s) :
    ∀ p ∈ allSimplePaths G.edges s t c, ∀ x ∈ p, x ∈ nodeIdList nodes := by
  intro p hp x hx
  obtain ⟨han, hae⟩ := buildGraph_ok_pieces nodes edges G hok
  have hmem := addNodes_mem nodes [] G.nodeIds han
  rcases mem_of_mem_simplePathsAux G.edges t c [] s p hp x hx with h | h | ⟨e, he, hx₂⟩
  · cases h
  · rw [h]
    exact sourceId_mem nodes s hs
  · have hend := addEdges_endpoints edges G.nodeIds [] G.edges hae
      (by intro a ha; cases ha) e he
    rw [hx₂]
    rcases (hmem e.2.1).mp hend.2 with h₂ | h₂
    · cases h₂
    · exact h₂

end Minimal

namespace Causal

theorem causalAddNodes_mem (ns : List PyNode) : ∀ (acc ids : List String),
    addNodes ns acc = .ok ids → ∀ x, (x ∈ ids ↔ x ∈ acc ∨ x ∈ nodeIdList ns) := by
  induction ns with
  | nil =>
    intro acc ids h x
    simp only [addNodes, Except.ok.injEq] at h
    subst h
    simp [nodeIdList]
  | cons n rest ih =>
    intro acc ids h x
    rcases hn : n.id with _ | i
    · rw [addNodes, hn] at h
      cases h
    · rw [addNodes, hn] at h
      rw [ih _ _ h x, mem_addNodeId]
      have : nodeIdList (n :: rest) = i :: nodeIdList rest := by
        simp [nodeIdList, hn]
      rw [this]
      simp only [List.mem_cons]
      tauto

theorem causalAddEdges_endpoints (es : List PyEdge) : ∀ (ids : List String)
    (acc out : List (String × String × (Int × String))), addEdges ids es acc = .ok out →
    (∀ a ∈ acc, a.1 ∈ ids ∧ a.2.1 ∈ ids) → ∀ a ∈ out, a.1 ∈ ids ∧ a.2.1 ∈ ids := by
  induction es with
  | nil =>
    intro ids acc out h hacc a ha
    simp only [addEdges, Except.ok.injEq] at h
    subst h
    exact hacc a ha
  | cons e rest ih =>
    intro ids acc out h hacc a ha
    rcases hs : e.source with _ | s <;> rcases ht : e.target with _ | t
    all_goals rw [addEdges, hs] at h
    · cases h
    · cases h
    · rw [ht] at h; cases h
    · rw [ht] at h
      dsimp only at h
      by_cases hsm : s ∈ ids
      · rw [if_pos hsm] at h
        by_cases htm : t ∈ ids
        · rw [if_pos htm] at h
          refine ih _ _ _ h ?_ a ha
          intro b hb
          rcases mem_addEdgeRepl b s t (edgeData e) acc hb with h₂ | h₂
          · rw [h₂]
            exact ⟨hsm, htm⟩
          · exact hacc b h₂
        · rw [if_neg htm] at h
          cases h
      · rw [if_neg hsm] at h
        cases h

theorem causalBuild_ok_pieces (nodes : List PyNode) (edges : List PyEdge)
    (G : Graph (Int × String)) (h : buildGraph nodes edges = .ok G) :
    addNodes nodes [] = .ok G.nodeIds ∧ addEdges G.nodeIds edges [] = .ok G.edges := by
  rw [buildGraph] at h
  rcases han : addNodes nodes [] with m | ids
  · rw [han] at h
    cases h
  · rw [han] at h
    dsimp only at h
    rcases hae : addEdges ids edges [] with m | es
    · rw [hae] at h
      cases h
    · rw [hae] at h
      dsimp only at h
      obtain rfl : (⟨ids, es⟩ : Graph (Int × String)) = G := by injection h
      exact ⟨rfl, hae⟩

theorem resolveSource_mem (params : Params) (nids : List String) (s : String)
    (h : resolveSource params nids = some s) : s ∈ nids := by
  rcases hp : params.sourceNode with _ | sp
  · rw [resolveSource, hp] at h
    exact List.mem_of_mem_head? h
  · rw [resolveSource, hp] at h
    dsimp only at h
    by_cases hm : sp ∈ nids
    · rw [if_pos hm] at h
      obtain rfl : sp = s := Option.some.injEq .. ▸ h
      exact hm
    · rw [if_neg hm] at h
      exact List.mem_of_mem_head? h

theorem causalPathElems_mem (nodes : List PyNode) (edges : List PyEdge)
    (G : Graph (Int × String)) (params : Params) (s t : String) (c : Nat)
    (hok : buildGraph nodes edges = .ok G)
    (hs : resolveSource params (nodeIdList nodes) = some s) :
    ∀ p ∈ allSimplePaths G.edges s t c, ∀ x ∈ p, x ∈ nodeIdList nodes := by
  intro p hp x hx
  obtain ⟨han, hae⟩ := causalBuild_ok_pieces nodes edges G hok
  have hmem := causalAddNodes_mem nodes [] G.nodeIds han
  rcases mem_of_mem_simplePathsAux G.edges t c [] s p hp x hx with h | h | ⟨e, he, hx₂⟩
  · cases h
  · rw [h]
    exact resolveSource_mem params (nodeIdList nodes) s hs
  · have hend := causalAddEdges_endpoints edges G.nodeIds [] G.edges hae
      (by intro a ha; cases ha) e he
    have : e.2.1 ∈ G.nodeIds := hend.2
    rcases (hmem e.2.1).mp this with h₂ | h₂
    · cases h₂
    · rw [hx₂]
      exact h₂

end Causal

namespace Causal

theorem causalAnalyze_ok (nodes : List PyNode) (edges : List PyEdge) (params : Params)
    (G : Graph (Int × String)) (s t : String) (hne : nodes.isEmpty = false)
    (hok : buildGraph nodes edges = .ok G)
    (hs : resolveSource params (nodeIdList nodes) = some s)
    (ht : resolveTarget params (nodeIdList nodes) = some t) (hs0 : s ≠ "") (ht0 : t ≠ "")
    (hst : s ≠ t) :
    analyze_graph nodes edges params =
      .ok { influence_scores := insertAll []
              (G.nodeIds.map (fun i =>
                ((dictLookup i (idToLabel nodes)).getD i, analyze_graph.inSumC G i)))
            positive_paths := (sortDescBy (fun info => |info.weight|)
              (((allSimplePaths G.edges s t params.maxPathLength).filter
                (fun p => (pathTypes G.edges p).all (fun ty => ty = "+"))).map
                  (mkInfo G.edges (idToLabel nodes)))).map (fun info => info.path)
            negative_paths := (sortDescBy (fun info => |info.weight|)
              (((allSimplePaths G.edges s t params.maxPathLength).filter
                (fun p => (pathTypes G.edges p).all (fun ty => ty = "-"))).map
                  (mkInfo G.edges (idToLabel nodes)))).map (fun info => info.path)
            detailed_positive := sortDescBy (fun info => |info.weight|)
              (((allSimplePaths G.edges s t params.maxPathLength).filter
                (fun p => (pathTypes G.edges p).all (fun ty => ty = "+"))).map
                  (mkInfo G.edges (idToLabel nodes)))
            detailed_negative := sortDescBy (fun info => |info.weight|)
              (((allSimplePaths G.edges s t params.maxPathLength).filter
                (fun p => (pathTypes G.edges p).all (fun ty => ty = "-"))).map
                  (mkInfo G.edges (idToLabel nodes)))
            mixed_paths := sortDescBy (fun info => |info.weight|)
              (((allSimplePaths G.edges s t params.maxPathLength).filter
                (fun p => !((pathTypes G.edges p).all (fun ty => ty = "+")) &&
                  !((pathTypes G.edges p).all (fun ty => ty = "-")))).map
                  (mkInfo G.edges (idToLabel nodes))) } := by
  rw [analyze_graph, hne]
  dsimp only
  rw [hok]
  dsimp only
  rw [hs, ht]
  dsimp only
  have hguard : s ≠ "" ∧ t ≠ "" ∧ s ≠ t := ⟨hs0, ht0, hst⟩
  rw [if_pos hguard]
  rfl

end Causal

theorem minimal_classification (nodes : List PyNode) (edges : List PyEdge) (G : Graph Int)
    (s t : String) (hok : Minimal.buildGraph nodes edges = .ok G) (hlen : 2 ≤ nodes.length)
    (hs : Minimal.sourceId nodes = some s) (ht : Minimal.targetId nodes = some t)
    (hhp : hasPathB G s t = true) (hmax : Minimal.maxWeightPositive G.edges = true)
    (hnd : (nodeIdList nodes).Nodup) (hlab : (resolvedLabels nodes).Nodup) :
    ∀ p ∈ allSimplePaths G.edges s t G.nodeIds.length,
      (labelPath (idToLabel nodes) p ∈ (Minimal.analyze_graph nodes edges).positive_paths ↔
        Minimal.pathAllB (fun w => decide (0 < w)) G.edges p = true) ∧
      (labelPath (idToLabel nodes) p ∈ (Minimal.analyze_graph nodes edges).negative_paths ↔
        Minimal.pathAllB (fun w => decide (w < 0)) G.edges p = true) := by
  intro p hp
  obtain ⟨hpos, hneg⟩ := Minimal.analyze_graph_paths nodes edges G hok hlen s t hs ht hhp hmax
  have key : ∀ pred : List String → Bool,
      (labelPath (idToLabel nodes) p ∈
        ((allSimplePaths G.edges s t G.nodeIds.length).filter pred).map
          (labelPath (idToLabel nodes))) ↔ pred p = true := by
    intro pred
    constructor
    · intro hm
      obtain ⟨q, hq, hql⟩ := List.mem_map.mp hm
      obtain ⟨hqmem, hqpred⟩ := List.mem_filter.mp hq
      have hqp : q = p := labelPath_inj_on nodes hnd hlab q p
        (Minimal.pathElems_mem nodes edges G s t _ hok hs q hqmem)
        (Minimal.pathElems_mem nodes edges G s t _ hok hs p hp) hql
      rw [← hqp]
      exact hqpred
    · intro hpred
      exact List.mem_map_of_mem _ (List.mem_filter.mpr ⟨hp, hpred⟩)
  rw [hpos, hneg]
  exact ⟨key _, key _⟩

theorem causal_classification (nodes : List PyNode) (edges : List PyEdge)
    (params : Causal.Params) (G : Graph (Int × String)) (s t : String)
    (r : Causal.CausalResult) (hne : nodes.isEmpty = false)
    (hok : Causal.buildGraph nodes edges = .ok G)
    (hs : Causal.resolveSource params (nodeIdList nodes) = some s)
    (ht : Causal.resolveTarget params (nodeIdList nodes) = some t) (hs0 : s ≠ "")
    (ht0 : t ≠ "") (hst : s ≠ t)
    (hnd : (nodeIdList nodes).Nodup) (hlab : (resolvedLabels nodes).Nodup)
    (hr : Causal.analyze_graph nodes edges params = .ok r) :
    ∀ p ∈ allSimplePaths G.edges s t params.maxPathLength,
      (Causal.mkInfo G.edges (idToLabel nodes) p ∈ r.detailed_positive ↔
        (Causal.pathTypes G.edges p).all (fun ty => ty = "+") = true) ∧
      (Causal.mkInfo G.edges (idToLabel nodes) p ∈ r.detailed_negative ↔
        (Causal.pathTypes G.edges p).all (fun ty => ty = "-") = true) ∧
      (Causal.mkInfo G.edges (idToLabel nodes) p ∈ r.mixed_paths ↔
        ((Causal.pathTypes G.edges p).all (fun ty => ty = "+") = false ∧
         (Causal.pathTypes G.edges p).all (fun ty => ty = "-") = false)) ∧
      (labelPath (idToLabel nodes) p ∈ r.positive_paths ↔
        (Causal.pathTypes G.edges p).all (fun ty => ty = "+") = true) ∧
      (labelPath (idToLabel nodes) p ∈ r.negative_paths ↔
        (Causal.pathTypes G.edges p).all (fun ty => ty = "-") = true) := by
  rw [Causal.causalAnalyze_ok nodes edges params G s t hne hok hs ht hs0 ht0 hst] at hr
  obtain rfl := (Except.ok.injEq .. ▸ hr)
  intro p hp
  have helems := Causal.causalPathElems_mem nodes edges G params s t params.maxPathLength hok hs
  have hinfoinj : ∀ q ∈ allSimplePaths G.edges s t params.maxPathLength,
      Causal.mkInfo G.edges (idToLabel nodes) q = Causal.mkInfo G.edges (idToLabel nodes) p →
        q = p := by
    intro q hq hqe
    have hpath : labelPath (idToLabel nodes) q = labelPath (idToLabel nodes) p :=
      congrArg Causal.PathInfo.path hqe
    exact labelPath_inj_on nodes hnd hlab q p (helems q hq) (helems p hp) hpath
  have keyD : ∀ pred : List String → Bool,
      (Causal.mkInfo G.edges (idToLabel nodes) p ∈ sortDescBy (fun info => |info.weight|)
        (((allSimplePaths G.edges s t params.maxPathLength).filter pred).map
          (Causal.mkInfo G.edges (idToLabel nodes)))) ↔ pred p = true := by
    intro pred
    rw [(sortDescBy_perm _ _).mem_iff]
    constructor
    · intro hm
      obtain ⟨q, hq, hqe⟩ := List.mem_map.mp hm
      obtain ⟨hqmem, hqpred⟩ := List.mem_filter.mp hq
      rw [← hinfoinj q hqmem hqe]
      exact hqpred
    · intro hpred
      exact List.mem_map_of_mem _ (List.mem_filter.mpr ⟨hp, hpred⟩)
  have keyP : ∀ pred : List String → Bool,
      (labelPath (idToLabel nodes) p ∈ (sortDescBy (fun info => |info.weight|)
        (((allSimplePaths G.edges s t params.maxPathLength).filter pred).map
          (Causal.mkInfo G.edges (idToLabel nodes)))).map (fun info => info.path)) ↔
        pred p = true := by
    intro pred
    constructor
    · intro hm
      obtain ⟨info, hinfo, hpath⟩ := List.mem_map.mp hm
      have hinfo₂ : info ∈ ((allSimplePaths G.edges s t params.maxPathLength).filter pred).map
          (Causal.mkInfo G.edges (idToLabel nodes)) := (sortDescBy_perm _ _).subset hinfo
      obtain ⟨q, hq, hqe⟩ := List.mem_map.mp hinfo₂
      obtain ⟨hqmem, hqpred⟩ := List.mem_filter.mp hq
      have hql : labelPath (idToLabel nodes) q = labelPath (idToLabel nodes) p := by
        have : (Causal.mkInfo G.edges (idToLabel nodes) q).path = info.path :=
          congrArg Causal.PathInfo.path hqe
        rw [← hpath, ← this]
        rfl
      have hqp : q = p :=
        labelPath_inj_on nodes hnd hlab q p (helems q hqmem) (helems p hp) hql
      rw [← hqp]
      exact hqpred
    · intro hpred
      refine List.mem_map.mpr ⟨Causal.mkInfo G.edges (idToLabel nodes) p, ?_, rfl⟩
      refine (sortDescBy_perm _ _).mem_iff.mpr ?_
      exact List.mem_map_of_mem _ (List.mem_filter.mpr ⟨hp, hpred⟩)
  refine ⟨keyD _, keyD _, ?_, keyP _, keyP _⟩
  rw [keyD _]
  rw [Bool.and_eq_true, Bool.not_eq_true', Bool.not_eq_true']

/-- C2 amended: in the minimal analyzer an enumerated path is reported
positive iff every edge weight is strictly positive and negative iff every
edge weight is strictly negative (anything else is dropped); in the
causal-paths plugin classification is by edge *type*, not weight sign: a
path is positive iff all its edge types are `+`, negative iff all are `-`,
and mixed otherwise — so a zero-weight edge of type `+` still yields a
positive classification there. -/
theorem c2_path_polarity_classification :
    (∀ (nodes : List PyNode) (edges : List PyEdge) (G : Graph Int) (s t : String),
      Minimal.buildGraph nodes edges = .ok G → 2 ≤ nodes.length →
      Minimal.sourceId nodes = some s → Minimal.targetId nodes = some t →
      hasPathB G s t = true → Minimal.maxWeightPositive G.edges = true →
      (nodeIdList nodes).Nodup → (resolvedLabels nodes).Nodup →
      ∀ p ∈ allSimplePaths G.edges s t G.nodeIds.length,
        (labelPath (idToLabel nodes) p ∈ (Minimal.analyze_graph nodes edges).positive_paths ↔
          Minimal.pathAllB (fun w => decide (0 < w)) G.edges p = true) ∧
        (labelPath (idToLabel nodes) p ∈ (Minimal.analyze_graph nodes edges).negative_paths ↔
          Minimal.pathAllB (fun w => decide (w < 0)) G.edges p = true) ∧
        (Minimal.pathAllB (fun w => decide (0 < w)) G.edges p = false →
         Minimal.pathAllB (fun w => decide (w < 0)) G.edges p = false →
          labelPath (idToLabel nodes) p ∉ (Minimal.analyze_graph nodes edges).positive_paths ∧
          labelPath (idToLabel nodes) p ∉ (Minimal.analyze_graph nodes edges).negative_paths)) ∧
    (∀ (nodes : List PyNode) (edges : List PyEdge) (params : Causal.Params)
      (G : Graph (Int × String)) (s t : String) (r : Causal.CausalResult),
      nodes.isEmpty = false → Causal.buildGraph nodes edges = .ok G →
      Causal.resolveSource params (nodeIdList nodes) = some s →
      Causal.resolveTarget params (nodeIdList nodes) = some t →
      s ≠ "" → t ≠ "" → s ≠ t →
      (nodeIdList nodes).Nodup → (resolvedLabels nodes).Nodup →
      Causal.analyze_graph nodes edges params = .ok r →
      ∀ p ∈ allSimplePaths G.edges s t params.maxPathLength,
        (Causal.mkInfo G.edges (idToLabel nodes) p ∈ r.detailed_positive ↔
          (Causal.pathTypes G.edges p).all (fun ty => ty = "+") = true) ∧
        (Causal.mkInfo G.edges (idToLabel nodes) p ∈ r.detailed_negative ↔
          (Causal.pathTypes G.edges p).all (fun ty => ty = "-") = true) ∧
        (Causal.mkInfo G.edges (idToLabel nodes) p ∈ r.mixed_paths ↔
          ((Causal.pathTypes G.edges p).all (fun ty => ty = "+") = false ∧
           (Causal.pathTypes G.edges p).all (fun ty => ty = "-") = false)) ∧
        (labelPath (idToLabel nodes) p ∈ r.positive_paths ↔
          (Causal.pathTypes G.edges p).all (fun ty => ty = "+") = true) ∧
        (labelPath (idToLabel nodes) p ∈ r.negative_paths ↔
          (Causal.pathTypes G.edges p).all (fun ty => ty = "-") = true)) := by
  constructor
  · intro nodes edges G s t hok hlen hs ht hhp hmax hnd hlab p hp
    obtain ⟨h₁, h₂⟩ :=
      minimal_classification nodes edges G s t hok hlen hs ht hhp hmax hnd hlab p hp
    refine ⟨h₁, h₂, ?_⟩
    intro ha hb
    constructor
    · intro hmem
      rw [h₁.mp hmem] at ha
      cases ha
    · intro hmem
      rw [h₂.mp hmem] at hb
      cases hb
  · intro nodes edges params G s t r hne hok hs ht hs0 ht0 hst hnd hlab hr p hp
    exact causal_classification nodes edges params G s t r hne hok hs ht hs0 ht0 hst hnd hlab
      hr p hp

/-- C2 counterexample: in the causal-paths plugin, the single path `A→B`
over a zero-weight edge of type `+` — signed weight exactly `0`, hence not
strictly positive — is classified positive, and the mixed list is empty,
contradicting the claim that a zero-weight edge disqualifies the positive
classification (and is reported as mixed by the richer analyzer). -/
theorem c2_counterexample :
    Causal.analyze_graph [{ id := some "A" }, { id := some "B" }]
        [{ source := some "A", target := some "B", type := some "+", weight := some 0 }]
        ({} : Causal.Params) =
      .ok { influence_scores := [("A", 0), ("B", 0)],
            positive_paths := [["A", "B"]],
            negative_paths := [],
            detailed_positive := [{ path := ["A", "B"], weight := 0, length := 1 }],
            detailed_negative := [],
            mixed_paths := [] } ∧
    Causal.signedWeight
      { source := some "A", target := some "B", type := some "+", weight := some 0 } = 0 := by
  refine ⟨by rfl, by decide⟩

/-- C2 witness: the strictly positive chain `A→B(+,1), B→C(+,2)` for the
minimal analyzer, and the positive path `A→B(+,2)` for the causal-paths
plugin. -/
theorem c2_witness :
    ((labelPath (idToLabel [{ id := some "A" }, { id := some "B" }, { id := some "C" }])
        ["A", "B", "C"] ∈
      (Minimal.analyze_graph [{ id := some "A" }, { id := some "B" }, { id := some "C" }]
        [{ source := some "A", target := some "B", type := some "+", weight := some 1 },
         { source := some "B", target := some "C", type := some "+", weight := some 2 }]).positive_paths) ↔
      Minimal.pathAllB (fun w => decide (0 < w))
        (⟨["A", "B", "C"], [("A", "B", 1), ("B", "C", 2)]⟩ : Graph Int).edges
        ["A", "B", "C"] = true) ∧
    ((Causal.mkInfo (⟨["A", "B"], [("A", "B", (2, "+"))]⟩ : Graph (Int × String)).edges
        (idToLabel [{ id := some "A" }, { id := some "B" }]) ["A", "B"] ∈
      ({ influence_scores := [("A", 0), ("B", 2)],
         positive_paths := [["A", "B"]],
         negative_paths := [],
         detailed_positive := [{ path := ["A", "B"], weight := 2, length := 1 }],
         detailed_negative := [],
         mixed_paths := [] } : Causal.CausalResult).detailed_positive) ↔
      (Causal.pathTypes (⟨["A", "B"], [("A", "B", (2, "+"))]⟩ : Graph (Int × String)).edges
        ["A", "B"]).all (fun ty => ty = "+") = true) :=
  ⟨(c2_path_polarity_classification.1
      [{ id := some "A" }, { id := some "B" }, { id := some "C" }]
      [{ source := some "A", target := some "B", type := some "+", weight := some 1 },
       { source := some "B", target := some "C", type := some "+", weight := some 2 }]
      ⟨["A", "B", "C"], [("A", "B", 1), ("B", "C", 2)]⟩ "A" "C"
      (by rfl) (by decide) (by rfl) (by rfl) (by rfl) (by rfl) (by decide) (by decide)
      ["A", "B", "C"] (by decide)).1,
   (c2_path_polarity_classification.2
      [{ id := some "A" }, { id := some "B" }]
      [{ source := some "A", target := some "B", type := some "+", weight := some 2 }]
      ({} : Causal.Params) ⟨["A", "B"], [("A", "B", (2, "+"))]⟩ "A" "B"
      { influence_scores := [("A", 0), ("B", 2)],
        positive_paths := [["A", "B"]],
        negative_paths := [],
        detailed_positive := [{ path := ["A", "B"], weight := 2, length := 1 }],
        detailed_negative := [],
        mixed_paths := [] }
      (by rfl) (by rfl) (by rfl) (by rfl) (by decide) (by decide) (by decide) (by decide)
      (by decide) (by rfl) ["A", "B"] (by decide)).1⟩
